import Mathlib

/-!
Verification development for the nucleation-detection core: the phase-transition
simulators (`simulators/phase_transitions.py`), the detector bank
(`detectors/nucleation_detectors.py`) and the evaluation harness
(`evaluation/harness.py`).

Modelling conventions.
The Python code computes over numpy float64 arrays; the embedding computes over
exact rationals.  A possibly-NaN float is `F := Option ℚ` with `none` playing the
role of NaN (comparisons with NaN are false, arithmetic propagates NaN, `nanmean`
and friends skip it).  Floating-point rounding is not modelled: every arithmetic
operation is exact.  The two irrational library functions that the code uses,
`np.sqrt` and `np.exp`, are passed in as abstract parameters `rsqrt rexp : ℚ → ℚ`;
no claim in this development depends on their values.  numpy's global random
state (`np.random.seed` / `np.random.randn`) is modelled by a state `GState = (seed,
position)` together with an abstract draw family `noise : ℕ → ℕ → ℚ` giving the
value of draw `k` of the stream seeded with `s`; `np.random.seed s` resets the
state to `(s, 0)`.  Python `int(n * 0.1)`-style edge computations are modelled as
exact `⌊n·q⌋` (the float rounding of the literal is ignored).
-/

namespace Nucleation

/-- Possibly-NaN float value: `none` is NaN. -/
abbrev F := Option ℚ

/-- Addition, propagating NaN. -/
def fadd : F → F → F
  | some a, some b => some (a + b)
  | _, _ => none

/-- Subtraction, propagating NaN. -/
def fsub : F → F → F
  | some a, some b => some (a - b)
  | _, _ => none

/-- Multiplication, propagating NaN. -/
def fmul : F → F → F
  | some a, some b => some (a * b)
  | _, _ => none

/-- Division, propagating NaN.  Division by an exact zero is mapped to NaN; every
division in the embedded code is guarded by an epsilon floor, so this branch is
never significant. -/
def fdiv : F → F → F
  | some a, some b => if b = 0 then none else some (a / b)
  | _, _ => none

/-- Absolute value, propagating NaN. -/
def fabs : F → F := Option.map (fun x => |x|)

/-- Comparison `x < q`; false on NaN, as for floats. -/
def fLtQ (a : F) (q : ℚ) : Bool :=
  match a with
  | some x => decide (x < q)
  | none => false

/-- Comparison `x > q`; false on NaN, as for floats. -/
def fGtQ (a : F) (q : ℚ) : Bool :=
  match a with
  | some x => decide (q < x)
  | none => false

/-- Python slice `l[lo:hi]` (clamping, empty when `hi ≤ lo`). -/
def sliceL {α : Type} (lo hi : ℕ) (l : List α) : List α := (l.drop lo).take (hi - lo)

/-- Arithmetic mean of a list of rationals (`np.mean`); the empty case is never
reached on the paths the claims exercise. -/
def meanQ (l : List ℚ) : ℚ := l.sum / l.length

/-- Population variance (`np.var`): mean of squares minus square of mean. -/
def popVar (l : List ℚ) : ℚ := meanQ (l.map (fun x => x * x)) - meanQ l * meanQ l

/-- Valid (non-NaN) entries of a float list, in order. -/
def validVals (l : List F) : List ℚ := l.filterMap id

/-- Mean ignoring NaN (`np.nanmean`); NaN when no valid entry exists. -/
def nanmean (l : List F) : F :=
  if validVals l = [] then none else some (meanQ (validVals l))

/-- Insertion of a rational into a sorted list (ascending). -/
def insertQ (x : ℚ) : List ℚ → List ℚ
  | [] => [x]
  | y :: ys => if x ≤ y then x :: y :: ys else y :: insertQ x ys

/-- Insertion sort of rationals, ascending. -/
def sortQ (l : List ℚ) : List ℚ := l.foldr insertQ []

/-- Median of a list of rationals (`np.median`): middle element of the sorted
list, or the average of the two middle elements for even length. -/
def medianQ (l : List ℚ) : ℚ :=
  let s := sortQ l
  let n := s.length
  if n % 2 = 1 then s.getD (n / 2) 0 else (s.getD (n / 2 - 1) 0 + s.getD (n / 2) 0) / 2

/-- Median ignoring NaN (`np.nanmedian`); NaN when no valid entry exists. -/
def nanmedian (l : List F) : F :=
  if validVals l = [] then none else some (medianQ (validVals l))

/-- Standard deviation of the valid entries (`np.nanstd`), via the abstract
square root `rsqrt`; NaN when no valid entry exists. -/
def nanstd (rsqrt : ℚ → ℚ) (l : List F) : F :=
  if validVals l = [] then none else some (rsqrt (popVar (validVals l)))

/-- First index `i` in the half-open range `[lo, lo + cnt)` with `cond i = true`
(the `for i in range(lo, hi): ... return i` idiom). -/
def scanFirst (cond : ℕ → Bool) : ℕ → ℕ → Option ℕ
  | _, 0 => none
  | lo, Nat.succ k => if cond lo then some lo else scanFirst cond (lo + 1) k

theorem scanFirst_eq_some_iff (cond : ℕ → Bool) (lo cnt i : ℕ) :
    scanFirst cond lo cnt = some i ↔
      lo ≤ i ∧ i < lo + cnt ∧ cond i = true ∧ ∀ j, lo ≤ j → j < i → cond j = false := by
  induction cnt generalizing lo with
  | zero =>
    simp only [scanFirst]
    constructor
    · intro h; cases h
    · rintro ⟨h1, h2, -, -⟩; omega
  | succ k ih =>
    simp only [scanFirst]
    by_cases hc : cond lo
    · simp only [hc, if_true]
      constructor
      · intro h
        have hl : lo = i := by simpa using h
        subst hl
        exact ⟨Nat.le_refl _, by omega, hc, fun j hj1 hj2 => absurd hj1 (by omega)⟩
      · rintro ⟨h1, -, -, h4⟩
        rcases Nat.eq_or_lt_of_le h1 with h | h
        · rw [h]
        · exact absurd hc (by simpa using h4 lo (Nat.le_refl _) h)
    · have hcf : cond lo = false := by simpa using hc
      rw [hcf]
      simp only [Bool.false_eq_true, if_false, ih]
      constructor
      · rintro ⟨h1, h2, h3, h4⟩
        refine ⟨by omega, by omega, h3, fun j hj1 hj2 => ?_⟩
        rcases Nat.eq_or_lt_of_le hj1 with h | h
        · rw [← h]; simpa using hc
        · exact h4 j h hj2
      · rintro ⟨h1, h2, h3, h4⟩
        have hne : lo ≠ i := by
          rintro rfl; exact absurd h3 (by simpa using hc)
        exact ⟨by omega, by omega, h3, fun j hj1 hj2 => h4 j (by omega) hj2⟩

theorem scanFirst_eq_none_of_false (cond : ℕ → Bool) (lo cnt : ℕ)
    (h : ∀ j, cond j = false) : scanFirst cond lo cnt = none := by
  induction cnt generalizing lo with
  | zero => rfl
  | succ k ih => simp only [scanFirst, h lo, if_false]; exact ih _

/-- Index of the first maximum of a list of rationals (`np.argmax`), auxiliary
scan carrying the best value, its index and the current index. -/
def argmaxAux (best : ℚ) (bi cur : ℕ) : List ℚ → ℕ
  | [] => bi
  | x :: xs => if best < x then argmaxAux x cur (cur + 1) xs else argmaxAux best bi (cur + 1) xs

/-- Index of the first maximum of a list of rationals (`np.argmax`); `0` on the
empty list (numpy raises there; the embedded callers never pass one). -/
def argmaxQ : List ℚ → ℕ
  | [] => 0
  | x :: xs => argmaxAux x 0 1 xs

theorem argmaxAux_lt (best : ℚ) (bi cur B : ℕ) (xs : List ℚ)
    (h1 : bi < B) (h2 : cur + xs.length ≤ B) : argmaxAux best bi cur xs < B := by
  induction xs generalizing best bi cur with
  | nil => simpa [argmaxAux] using h1
  | cons x xs ih =>
    simp only [argmaxAux]
    by_cases hc : best < x
    · simp only [hc, if_true]
      exact ih x cur (cur + 1) (by simp at h2; omega) (by simp at h2; omega)
    · simp only [hc, if_false]
      exact ih best bi (cur + 1) h1 (by simp at h2; omega)

theorem argmaxQ_lt (l : List ℚ) (h : l ≠ []) : argmaxQ l < l.length := by
  match l with
  | [] => exact absurd rfl h
  | x :: xs =>
    simp only [argmaxQ, List.length_cons]
    exact argmaxAux_lt x 0 1 (xs.length + 1) xs (by omega) (by omega)

/-- Direction argument of the sustained-crossing search (`"below"` / `"above"`). -/
inductive Direction
  | below
  | above
deriving DecidableEq

/-- Directional threshold test of the sustained-crossing search; false on NaN. -/
def dirTest (d : Direction) (v : F) (threshold : ℚ) : Bool :=
  match d with
  | Direction.below => fLtQ v threshold
  | Direction.above => fGtQ v threshold

/-- Rolling variance with a trailing window (`BaseDetector.compute_rolling_variance`):
`variance[i] = np.var(signal[i-w:i])` for `i ∈ [w, n)`, NaN before the first full
window. -/
def compute_rolling_variance (w : ℕ) (signal : List ℚ) : List F :=
  (List.range signal.length).map
    (fun i => if w ≤ i then some (popVar (sliceL (i - w) i signal)) else none)

/-- Acceptance test at index `i` of `find_sustained_crossing`: the sample at `i`
is valid, at least `sustain_count / 2` of the next `sustain_count` samples are
valid, and strictly more than 70% of those `sustain_count` samples (NaN samples
failing the test) satisfy the directional threshold test. -/
def sustainCond (signal : List F) (threshold : ℚ) (direction : Direction)
    (sustain_count : ℕ) (i : ℕ) : Bool :=
  let win := sliceL i (i + sustain_count) signal
  (signal.getD i none).isSome &&
    (decide (sustain_count / 2 ≤ win.countP (fun v => v.isSome)) &&
      decide ((7 : ℚ) / 10 < (win.countP (fun v => dirTest direction v threshold) : ℚ) / sustain_count))

/-- Embedding of `BaseDetector.find_sustained_crossing`: first index in
`[max start_idx sustain_count, n - sustain_count)` accepted by `sustainCond`. -/
def find_sustained_crossing (signal : List F) (threshold : ℚ) (direction : Direction)
    (sustain_count : ℕ) (start_idx : ℕ) : Option ℕ :=
  let lo := max start_idx sustain_count
  scanFirst (sustainCond signal threshold direction sustain_count) lo
    (signal.length - sustain_count - lo)

/-- Embedding of `BaseDetector.find_peak` with `mode="max"` (the only mode the
code uses): NaN entries of the edge-excluded central slice are replaced by the
slice's nanmean and the first argmax of the filled slice is returned; `none` when
the slice has no valid entry. -/
def find_peak (signal : List F) (start_frac end_frac : ℚ) : Option ℕ :=
  let n := signal.length
  let start := (⌊(n : ℚ) * start_frac⌋).toNat
  let stop := (⌊(n : ℚ) * end_frac⌋).toNat
  let sub := sliceL start stop signal
  if validVals sub = [] then none
  else
    let fill := meanQ (validVals sub)
    let filled := sub.map (fun v => v.getD fill)
    some (start + argmaxQ filled)

/-- Full discrete convolution (`np.convolve(a, k, mode="full")`) over possibly-NaN
values: entry `m` sums `a[j] * k[m - j]` over the valid index range. -/
def convolveFull (a k : List F) : List F :=
  (List.range (a.length + k.length - 1)).map
    (fun m =>
      ((List.range (min m (a.length - 1) + 1 - (m + 1 - k.length))).map
          (fun t =>
            let j := m + 1 - k.length + t
            fmul (a.getD j none) (k.getD (m - j) none))).foldl fadd (some 0))

/-- Mode `"same"` convolution (`np.convolve(a, k, mode="same")`): the centred
`max (a.length, k.length)` entries of the full convolution. -/
def convolveSame (a k : List F) : List F :=
  sliceL ((min a.length k.length - 1) / 2)
    ((min a.length k.length - 1) / 2 + max a.length k.length) (convolveFull a k)

/-- Embedding of `np.gradient` on a uniformly spaced 1-D array: one-sided
differences at the ends, centred differences inside.  numpy raises on arrays
shorter than 2; the embedding returns the list unchanged there (never reached on
the paths the claims exercise). -/
def gradientF (a : List F) : List F :=
  if a.length < 2 then a
  else
    (List.range a.length).map
      (fun i =>
        if i = 0 then fsub (a.getD 1 none) (a.getD 0 none)
        else if i = a.length - 1 then fsub (a.getD i none) (a.getD (i - 1) none)
        else fdiv (fsub (a.getD (i + 1) none) (a.getD (i - 1) none)) (some 2))

/-- Detector identity tags (`DetectorType`). -/
inductive DetectorType
  | VARIANCE_RATIO
  | VARIANCE_DERIVATIVE
  | VARIANCE_INFLECTION
  | ENSEMBLE
  | ROLLING_ZSCORE
  | CUSUM
  | CHANGE_POINT
deriving DecidableEq

/-- Result of one detector invocation (`DetectionResult`).  The `metadata`
dictionary of the source is not modelled; no claim mentions it. -/
structure DetectionResult where
  detected : Bool
  detection_index : Option ℕ
  confidence : ℚ
  detector_type : DetectorType
  signal : List F
  threshold : ℚ
deriving DecidableEq

/-- Parameters of `VarianceRatioDetector`. -/
structure VarianceRatioDetector where
  window : ℕ
  baseline_window : ℕ
  threshold : ℚ
  sustain : ℕ
deriving DecidableEq

/-- Constructor `VarianceRatioDetector(window=w)`: remaining parameters at their
source defaults (`baseline_window=80, threshold=0.4, sustain=15`). -/
def VarianceRatioDetector.ofWindow (w : ℕ) : VarianceRatioDetector := ⟨w, 80, 2 / 5, 15⟩

/-- Ratio trace of `VarianceRatioDetector.detect` (lines 159-174 of the source):
rolling variance over the trailing adaptive baseline, NaN baselines filled with
the nanmedian of the variance, then floored at `1e-10`. -/
def VarianceRatioDetector.ratioTrace (p : VarianceRatioDetector) (signal : List ℚ) : List F :=
  let n := signal.length
  let variance := compute_rolling_variance p.window signal
  let baseline0 := (List.range n).map
    (fun i =>
      if p.baseline_window + p.window ≤ i then
        nanmean (sliceL (i - p.baseline_window) (i - p.window / 2) variance)
      else none)
  let med := nanmedian variance
  let baseline1 := baseline0.map (fun b => match b with | none => med | some x => some x)
  let baseline := baseline1.map (Option.map (fun b => max b (1 / 10 ^ 10)))
  List.zipWith fdiv variance baseline

/-- Embedding of `VarianceRatioDetector.detect`. -/
def VarianceRatioDetector.detect (p : VarianceRatioDetector) (signal : List ℚ) : DetectionResult :=
  let ratio := VarianceRatioDetector.ratioTrace p signal
  let idx_low := find_sustained_crossing ratio p.threshold Direction.below p.sustain p.baseline_window
  let idx_high := find_sustained_crossing ratio (1 / p.threshold) Direction.above p.sustain p.baseline_window
  let detection_idx : Option ℕ :=
    match idx_low, idx_high with
    | none, none => none
    | some a, none => some a
    | none, some b => some b
    | some a, some b => some (min a b)
  match detection_idx with
  | none => ⟨false, none, 0, DetectorType.VARIANCE_RATIO, ratio, p.threshold⟩
  | some d =>
      let r := (ratio.getD d none).getD 1
      ⟨true, some d, min 1 |1 - r|, DetectorType.VARIANCE_RATIO, ratio, p.threshold⟩

/-- Parameters of `VarianceDerivativeDetector`. -/
structure VarianceDerivativeDetector where
  window : ℕ
  derivative_window : ℕ
  threshold : ℚ
deriving DecidableEq

/-- Constructor `VarianceDerivativeDetector(window=w)` with source defaults
(`derivative_window=25, threshold=0.3`). -/
def VarianceDerivativeDetector.ofWindow (w : ℕ) : VarianceDerivativeDetector := ⟨w, 25, 3 / 10⟩

/-- Embedding of `VarianceDerivativeDetector.detect`. -/
def VarianceDerivativeDetector.detect (p : VarianceDerivativeDetector) (signal : List ℚ) :
    DetectionResult :=
  let variance := compute_rolling_variance p.window signal
  let n := variance.length
  let derivative : List F := (List.range n).map
    (fun i =>
      if p.derivative_window + p.window ≤ i then
        match variance.getD i none, variance.getD (i - p.derivative_window) none with
        | some vi, some vj =>
            (match nanmean (sliceL (i - p.derivative_window) (i + 1) variance) with
             | some m => if 1 / 10 ^ 10 < m then some ((vi - vj) / m) else none
             | none => none)
        | _, _ => none
      else none)
  let abs_deriv := derivative.map fabs
  match find_peak abs_deriv (3 / 20) (17 / 20) with
  | some pk =>
      match abs_deriv.getD pk none with
      | some v =>
          if p.threshold < v then
            ⟨true, some pk, min 1 (v / p.threshold), DetectorType.VARIANCE_DERIVATIVE, derivative,
              p.threshold⟩
          else ⟨false, none, 0, DetectorType.VARIANCE_DERIVATIVE, derivative, p.threshold⟩
      | none => ⟨false, none, 0, DetectorType.VARIANCE_DERIVATIVE, derivative, p.threshold⟩
  | none => ⟨false, none, 0, DetectorType.VARIANCE_DERIVATIVE, derivative, p.threshold⟩

/-- Parameters of `VarianceInflectionDetector`. -/
structure VarianceInflectionDetector where
  window : ℕ
  smooth_window : ℕ
  threshold : ℚ
deriving DecidableEq

/-- Constructor `VarianceInflectionDetector(window=w)` with source defaults
(`smooth_window=20, threshold=0.2`). -/
def VarianceInflectionDetector.ofWindow (w : ℕ) : VarianceInflectionDetector := ⟨w, 20, 1 / 5⟩

/-- Embedding of `VarianceInflectionDetector.detect`; `rsqrt` stands for the
`np.sqrt` inside `np.nanstd`. -/
def VarianceInflectionDetector.detect (rsqrt : ℚ → ℚ) (p : VarianceInflectionDetector)
    (signal : List ℚ) : DetectionResult :=
  let variance := compute_rolling_variance p.window signal
  let med := nanmedian variance
  let valid_var := variance.map (fun v => match v with | none => med | some x => some x)
  let kernel : List F := List.replicate p.smooth_window (some (1 / (p.smooth_window : ℚ)))
  let smoothed := convolveSame valid_var kernel
  let d1 := gradientF smoothed
  let d2 := gradientF d1
  let inflection_signal := d2.map fabs
  match find_peak inflection_signal (3 / 20) (17 / 20) with
  | some pk =>
      let score := inflection_signal.getD pk none
      let normalized_score : F :=
        match nanstd rsqrt inflection_signal with
        | some t => if 1 / 10 ^ 10 < t then fdiv score (some t) else some 0
        | none => some 0
      if fGtQ normalized_score p.threshold then
        ⟨true, some pk, min 1 (normalized_score.getD 0 / (p.threshold * 3)),
          DetectorType.VARIANCE_INFLECTION, inflection_signal, p.threshold⟩
      else ⟨false, none, 0, DetectorType.VARIANCE_INFLECTION, inflection_signal, p.threshold⟩
  | none => ⟨false, none, 0, DetectorType.VARIANCE_INFLECTION, inflection_signal, p.threshold⟩

/-- Parameters of `RollingZScoreDetector`. -/
structure RollingZScoreDetector where
  window : ℕ
  zscore_window : ℕ
  threshold : ℚ
  sustain : ℕ
deriving DecidableEq

/-- Constructor `RollingZScoreDetector(window=w)` with source defaults
(`zscore_window=80, threshold=2.0, sustain=10`). -/
def RollingZScoreDetector.ofWindow (w : ℕ) : RollingZScoreDetector := ⟨w, 80, 2, 10⟩

/-- Embedding of `RollingZScoreDetector.detect`; `rsqrt` stands for the `np.sqrt`
inside `np.std`. -/
def RollingZScoreDetector.detect (rsqrt : ℚ → ℚ) (p : RollingZScoreDetector)
    (signal : List ℚ) : DetectionResult :=
  let variance := compute_rolling_variance p.window signal
  let n := variance.length
  let zscore : List F := (List.range n).map
    (fun i =>
      if p.zscore_window + p.window ≤ i then
        let valid_data := validVals (sliceL (i - p.zscore_window) (i - p.window / 2) variance)
        if 10 < valid_data.length then
          let m := meanQ valid_data
          let s := rsqrt (popVar valid_data)
          if 1 / 10 ^ 10 < s then
            match variance.getD i none with
            | some vi => some ((vi - m) / s)
            | none => none
          else none
        else none
      else none)
  let abs_zscore := zscore.map fabs
  match find_sustained_crossing abs_zscore p.threshold Direction.above p.sustain p.zscore_window with
  | some di =>
      let m := (nanmean (sliceL di (di + p.sustain) abs_zscore)).getD 0
      ⟨true, some di, min 1 (m / p.threshold), DetectorType.ROLLING_ZSCORE, zscore, p.threshold⟩
  | none => ⟨false, none, 0, DetectorType.ROLLING_ZSCORE, zscore, p.threshold⟩

/-- Parameters of `CUSUMDetector`. -/
structure CUSUMDetector where
  window : ℕ
  drift : ℚ
  threshold : ℚ
deriving DecidableEq

/-- Constructor `CUSUMDetector(window=w)` with source defaults
(`drift=0.3, threshold=4.0`). -/
def CUSUMDetector.ofWindow (w : ℕ) : CUSUMDetector := ⟨w, 3 / 10, 4⟩

/-- Positive CUSUM scan: `c[0] = 0`, `c[i] = max 0 (c[i-1] + s[i] - drift)`. -/
def cusumScanPos (drift : ℚ) : List ℚ → List ℚ
  | [] => []
  | _ :: rest => rest.scanl (fun c v => max 0 (c + v - drift)) 0

/-- Negative CUSUM scan: `c[0] = 0`, `c[i] = min 0 (c[i-1] + s[i] + drift)`. -/
def cusumScanNeg (drift : ℚ) : List ℚ → List ℚ
  | [] => []
  | _ :: rest => rest.scanl (fun c v => min 0 (c + v + drift)) 0

/-- Embedding of `CUSUMDetector.detect`; `rsqrt` stands for the `np.sqrt` inside
`np.std`. -/
def CUSUMDetector.detect (rsqrt : ℚ → ℚ) (p : CUSUMDetector) (signal : List ℚ) :
    DetectionResult :=
  let variance := compute_rolling_variance p.window signal
  let n := variance.length
  let valid_variance := validVals variance
  if valid_variance.length < 20 then
    ⟨false, none, 0, DetectorType.CUSUM, List.replicate n none, p.threshold⟩
  else
    let baseline_n := max 10 (valid_variance.length / 3)
    let bmean := meanQ (valid_variance.take baseline_n)
    let std0 := rsqrt (popVar (valid_variance.take baseline_n))
    let std1 := if std0 < 1 / 10 ^ 10 then rsqrt (popVar valid_variance) else std0
    let std := if std1 < 1 / 10 ^ 10 then 1 else std1
    let standardized := valid_variance.map (fun v => (v - bmean) / std)
    let cusum_abs := List.zipWith (fun a b => max a |b|)
      (cusumScanPos p.drift standardized) (cusumScanNeg p.drift standardized)
    let valid_indices := (List.range n).filter (fun i => (variance.getD i none).isSome)
    let cusum_combined : List F := (List.range n).map
      (fun i =>
        if (variance.getD i none).isSome then
          some (cusum_abs.getD ((variance.take i).countP (fun v => v.isSome)) 0)
        else none)
    match scanFirst (fun j => decide (p.threshold < cusum_abs.getD j 0)) 0 cusum_abs.length with
    | some j =>
        ⟨true, some (valid_indices.getD j 0), min 1 (cusum_abs.getD j 0 / p.threshold),
          DetectorType.CUSUM, cusum_combined, p.threshold⟩
    | none => ⟨false, none, 0, DetectorType.CUSUM, cusum_combined, p.threshold⟩

/-- Parameters of `ChangePointDetector`. -/
structure ChangePointDetector where
  window : ℕ
  min_segment : ℕ
  threshold : ℚ
deriving DecidableEq

/-- Constructor `ChangePointDetector(window=w)` with source defaults
(`min_segment=50, threshold=0.3`). -/
def ChangePointDetector.ofWindow (w : ℕ) : ChangePointDetector := ⟨w, 50, 3 / 10⟩

/-- Embedding of `ChangePointDetector.detect`. -/
def ChangePointDetector.detect (p : ChangePointDetector) (signal : List ℚ) : DetectionResult :=
  let variance := compute_rolling_variance p.window signal
  let n := variance.length
  if (validVals variance).length < 2 * p.min_segment then
    ⟨false, none, 0, DetectorType.CHANGE_POINT, List.replicate n (some 0), p.threshold⟩
  else
    let llr : List ℚ := (List.range n).map
      (fun i =>
        if p.min_segment + p.window ≤ i ∧ i < n - p.min_segment then
          let left_valid := validVals (sliceL p.window i variance)
          let right_valid := validVals (sliceL i n variance)
          if left_valid.length < 10 ∨ right_valid.length < 10 then 0
          else
            let var_left := popVar left_valid
            let var_right := popVar right_valid
            let var_all := popVar (validVals (sliceL p.window n variance))
            if 1 / 10 ^ 10 < var_all then
              1 - ((left_valid.length : ℚ) * var_left + (right_valid.length : ℚ) * var_right) /
                  ((left_valid.length : ℚ) + (right_valid.length : ℚ)) / var_all
            else 0
        else 0)
    match find_peak (llr.map some) (3 / 20) (17 / 20) with
    | some pk =>
        if p.threshold < llr.getD pk 0 then
          ⟨true, some pk, min 1 (llr.getD pk 0), DetectorType.CHANGE_POINT, llr.map some,
            p.threshold⟩
        else ⟨false, none, 0, DetectorType.CHANGE_POINT, llr.map some, p.threshold⟩
    | none => ⟨false, none, 0, DetectorType.CHANGE_POINT, llr.map some, p.threshold⟩

/-- Parameters of `EnsembleDetector`; `weights` models the per-detector-type
weight dictionary (`dict.get(type, 1.0)` becomes a total function). -/
structure EnsembleDetector where
  window : ℕ
  threshold : ℚ
  weights : DetectorType → ℚ

/-- Default ensemble weights of the source (1.5, 1.2, 1.0, 0.8, 1.0, 1.3); the
`ENSEMBLE` entry is the dictionary's default value 1.0, never queried. -/
def default_weights : DetectorType → ℚ
  | DetectorType.VARIANCE_RATIO => 3 / 2
  | DetectorType.VARIANCE_DERIVATIVE => 6 / 5
  | DetectorType.VARIANCE_INFLECTION => 1
  | DetectorType.ROLLING_ZSCORE => 4 / 5
  | DetectorType.CUSUM => 1
  | DetectorType.CHANGE_POINT => 13 / 10
  | DetectorType.ENSEMBLE => 1

/-- Constructor `EnsembleDetector(window=w)` with source defaults
(`threshold=0.4`, default weights). -/
def EnsembleDetector.ofWindow (w : ℕ) : EnsembleDetector := ⟨w, 2 / 5, default_weights⟩

/-- Results of the six base detectors run on the same signal, in source order,
each constructed with the ensemble's window and its own remaining defaults. -/
def ensembleSubResults (rsqrt : ℚ → ℚ) (p : EnsembleDetector) (signal : List ℚ) :
    List DetectionResult :=
  [VarianceRatioDetector.detect (VarianceRatioDetector.ofWindow p.window) signal,
    VarianceDerivativeDetector.detect (VarianceDerivativeDetector.ofWindow p.window) signal,
    VarianceInflectionDetector.detect rsqrt (VarianceInflectionDetector.ofWindow p.window) signal,
    RollingZScoreDetector.detect rsqrt (RollingZScoreDetector.ofWindow p.window) signal,
    CUSUMDetector.detect rsqrt (CUSUMDetector.ofWindow p.window) signal,
    ChangePointDetector.detect (ChangePointDetector.ofWindow p.window) signal]

/-- Voting sub-results: those that fired with a non-null index. -/
def ensembleDetections (rsqrt : ℚ → ℚ) (p : EnsembleDetector) (signal : List ℚ) :
    List DetectionResult :=
  (ensembleSubResults rsqrt p signal).filter (fun r => r.detected && r.detection_index.isSome)

/-- Peak normalization of a sub-detector trace: NaN replaced by 0, then divided
by the maximum absolute value when positive. -/
def normalizeTrace (s : List F) : List ℚ :=
  let s0 := s.map (fun v => v.getD 0)
  let smax := (s0.map (fun x => |x|)).foldl max 0
  if 0 < smax then s0.map (fun x => x / smax) else s0

/-- Sum of the six default weight-dictionary values (`sum(self.weights.values())`). -/
def weightTotal (p : EnsembleDetector) : ℚ :=
  p.weights DetectorType.VARIANCE_RATIO + p.weights DetectorType.VARIANCE_DERIVATIVE +
    p.weights DetectorType.VARIANCE_INFLECTION + p.weights DetectorType.ROLLING_ZSCORE +
    p.weights DetectorType.CUSUM + p.weights DetectorType.CHANGE_POINT

/-- Combined diagnostic trace of the ensemble: weighted sum of the peak-normalized
sub-traces (traces with no valid entry skipped), divided by the weight total. -/
def ensembleCombined (p : EnsembleDetector) (results : List DetectionResult) (n : ℕ) :
    List ℚ :=
  (results.foldl
      (fun acc r =>
        if r.signal.countP (fun v => v.isSome) ≠ 0 then
          List.zipWith (fun a b => a + b) acc
            ((normalizeTrace r.signal).map (fun x => x * p.weights r.detector_type))
        else acc)
      (List.replicate n (0 : ℚ))).map (fun x => x / weightTotal p)

/-- Stable-enough insertion by detection index (ties keep no particular order, as
with `np.argsort`; the selected index value is unaffected by tie order). -/
def insertByIdx (x : ℕ × ℚ) : List (ℕ × ℚ) → List (ℕ × ℚ)
  | [] => [x]
  | y :: ys => if x.1 < y.1 then x :: y :: ys else y :: insertByIdx x ys

/-- Sort of (index, weight) pairs by index. -/
def sortByIdx (l : List (ℕ × ℚ)) : List (ℕ × ℚ) := l.foldr insertByIdx []

/-- Weighted median of the voting indices: sort by index, accumulate weights,
pick the entry at half the total weight (`np.searchsorted` on the cumulative sum). -/
def ensembleDetectionIdx (p : EnsembleDetector) (detections : List DetectionResult) : ℕ :=
  let pairs := detections.map (fun r => (r.detection_index.getD 0, p.weights r.detector_type))
  let sorted := sortByIdx pairs
  let cumsum := ((sorted.map Prod.snd).scanl (fun a b => a + b) 0).drop 1
  let half := cumsum.getD (cumsum.length - 1) 0 / 2
  let median_pos := cumsum.countP (fun c => decide (c < half))
  (sorted.getD (min median_pos (sorted.length - 1)) (0, 0)).1

/-- Embedding of `EnsembleDetector.detect`. -/
def EnsembleDetector.detect (rsqrt : ℚ → ℚ) (p : EnsembleDetector) (signal : List ℚ) :
    DetectionResult :=
  let results := ensembleSubResults rsqrt p signal
  let detections := ensembleDetections rsqrt p signal
  if detections.length = 0 then
    ⟨false, none, 0, DetectorType.ENSEMBLE, (List.replicate signal.length (0 : ℚ)).map some,
      p.threshold⟩
  else
    let vote_fraction := (detections.length : ℚ) / (results.length : ℚ)
    if vote_fraction < p.threshold then
      ⟨false, none, 0, DetectorType.ENSEMBLE, (List.replicate signal.length (0 : ℚ)).map some,
        p.threshold⟩
    else
      let total_weight := (detections.map (fun r => p.weights r.detector_type)).sum
      let weighted_conf :=
        (detections.map (fun r => r.confidence * p.weights r.detector_type)).sum / total_weight
      ⟨true, some (ensembleDetectionIdx p detections), weighted_conf, DetectorType.ENSEMBLE,
        (ensembleCombined p results signal.length).map some, p.threshold⟩

/-- Transition archetypes (`TransitionType`). -/
inductive TransitionType
  | PITCHFORK
  | SADDLE_NODE
  | HOPF
  | TRANSCRITICAL
  | NUCLEATION
  | COMMITMENT
deriving DecidableEq

/-- Immutable simulation parameters (`SimulationConfig`). -/
structure SimulationConfig where
  transition_type : TransitionType
  duration : ℕ
  dt : ℚ
  noise_level : ℚ
  transition_fraction : ℚ
  seed : Option ℕ
deriving DecidableEq

/-- Global numpy random state: the seed of the active stream and the position in
it.  `np.random.seed s` resets it to `(s, 0)`. -/
abbrev GState := ℕ × ℕ

/-- Effect of the `if config.seed is not None: np.random.seed(config.seed)`
prologue of every simulator. -/
def seedReset : Option ℕ → GState → GState
  | some s, _ => (s, 0)
  | none, g => g

/-- One call of `np.random.randn()`: the draw family `noise` gives the value of
draw `k` of the stream seeded with `s`, and the position advances. -/
def drawRandn (noise : ℕ → ℕ → ℚ) (g : GState) : ℚ × GState := (noise g.1 g.2, (g.1, g.2 + 1))

/-- Euler–Maruyama loop: starting at step index `i` with previous state `x`,
perform `k` steps of `f` and return the produced states (in order) and the final
random state. -/
def iterSim {α : Type} (f : ℕ → α → GState → α × GState) :
    ℕ → ℕ → α → GState → List α × GState
  | 0, _, _, g => ([], g)
  | Nat.succ k, i, x, g =>
      let p := f i x g
      let rest := iterSim f k (i + 1) p.1 p.2
      (p.1 :: rest.1, rest.2)

theorem iterSim_length {α : Type} (f : ℕ → α → GState → α × GState) (k i : ℕ) (x : α)
    (g : GState) : (iterSim f k i x g).1.length = k := by
  induction k generalizing i x g with
  | zero => rfl
  | succ m ih => simp only [iterSim, List.length_cons, ih]

/-- Embedding of `np.linspace a b n` (with endpoint): exact arithmetic. -/
def linspaceQ (a b : ℚ) (n : ℕ) : List ℚ :=
  if n = 1 then [a]
  else (List.range n).map (fun (i : ℕ) => a + (b - a) * (i : ℚ) / ((n : ℚ) - 1))

theorem linspaceQ_length (a b : ℚ) (n : ℕ) : (linspaceQ a b n).length = n := by
  by_cases h : n = 1
  · simp [linspaceQ, h]
  · rw [linspaceQ, if_neg h, List.length_map, List.length_range]

/-- Simulation output (`SimulationResult`). -/
structure SimulationResult where
  time : List ℚ
  state : List ℚ
  control_param : List ℚ
  transition_index : ℕ
  transition_type : TransitionType
  config : SimulationConfig
  variance_trajectory : List F
deriving DecidableEq

/-- Embedding of the module-level `compute_variance_trajectory(state, window=50)`. -/
def compute_variance_trajectory (state : List ℚ) (window : ℕ) : List F :=
  compute_rolling_variance window state

/-- Full convolution over rationals (`np.convolve(a, k, mode="full")`). -/
def convolveFullQ (a k : List ℚ) : List ℚ :=
  (List.range (a.length + k.length - 1)).map
    (fun m =>
      ((List.range (min m (a.length - 1) + 1 - (m + 1 - k.length))).map
          (fun t =>
            let j := m + 1 - k.length + t
            a.getD j 0 * k.getD (m - j) 0)).sum)

/-- Mode `"same"` convolution over rationals. -/
def convolveSameQ (a k : List ℚ) : List ℚ :=
  sliceL ((min a.length k.length - 1) / 2)
    ((min a.length k.length - 1) / 2 + max a.length k.length) (convolveFullQ a k)

/-- Ground-truth recovery methods of `find_transition_index`. -/
inductive TransMethod
  | derivative
  | variance_peak
  | state_threshold
deriving DecidableEq

/-- Embedding of `find_transition_index(state, method, window=30,
exclude_edges=0.1)`; `rsqrt` stands for the `np.sqrt` inside `np.std` (used only
by the `state_threshold` method, which no simulator calls). -/
def find_transition_index (rsqrt : ℚ → ℚ) (state : List ℚ) (method : TransMethod)
    (window : ℕ) (exclude_edges : ℚ) : ℕ :=
  let n := state.length
  let start := (⌊(n : ℚ) * exclude_edges⌋).toNat
  let stop := (⌊(n : ℚ) * (1 - exclude_edges)⌋).toNat
  match method with
  | TransMethod.derivative =>
      let smooth_window := min 20 (n / 20)
      let smoothed :=
        if 1 < smooth_window then
          convolveSameQ state (List.replicate smooth_window (1 / (smooth_window : ℚ)))
        else state
      let derivative := List.zipWith (fun a b => |b - a|) smoothed (smoothed.drop 1)
      let peak_idx :=
        if start < stop then start + argmaxQ (sliceL start stop derivative) else n / 2
      min peak_idx (n - 1)
  | TransMethod.variance_peak =>
      let var_traj := compute_variance_trajectory state window
      if (sliceL start stop var_traj).countP (fun v => v.isSome) = 0 then n / 2
      else
        argmaxQ ((List.range n).map
          (fun i => if i < start ∨ stop ≤ i then 0 else (var_traj.getD i none).getD 0))
  | TransMethod.state_threshold =>
      let baseline_end := max start (n / 5)
      let baseline := state.take baseline_end
      let bmean := meanQ baseline
      let bstd0 := rsqrt (popVar baseline)
      let bstd := if bstd0 < 1 / 10 ^ 10 then rsqrt (popVar state) / 3 else bstd0
      let threshold := 5 / 2 * bstd
      let seg := sliceL start stop state
      let crossings :=
        (List.range seg.length).filter (fun k => decide (threshold < |seg.getD k 0 - bmean|))
      match crossings with
      | [] => n / 2
      | c :: _ => start + c

/-- Embedding of `simulate_pitchfork`. -/
def simulate_pitchfork (rsqrt : ℚ → ℚ) (noise : ℕ → ℕ → ℚ) (config : SimulationConfig)
    (g0 : GState) : SimulationResult × GState :=
  let g := seedReset config.seed g0
  let n := config.duration
  let dt := config.dt
  let sigma := config.noise_level
  let r := linspaceQ (-1) 1 n
  let d0 := drawRandn noise g
  let x0 := d0.1 * (1 / 100)
  let step := iterSim
    (fun i x gi =>
      let drift := r.getD (i - 1) 0 * x - x * x * x
      let d := drawRandn noise gi
      (x + drift * dt + sigma * rsqrt dt * d.1, d.2))
    (n - 1) 1 x0 d0.2
  let x := x0 :: step.1
  (⟨(List.range n).map (fun (i : ℕ) => (i : ℚ) * dt), x, r,
    find_transition_index rsqrt x TransMethod.derivative 30 (1 / 10),
    TransitionType.PITCHFORK, config, compute_variance_trajectory x 50⟩, step.2)

/-- Embedding of `simulate_saddle_node` (state clamped to `[-5, 5]`). -/
def simulate_saddle_node (rsqrt : ℚ → ℚ) (noise : ℕ → ℕ → ℚ) (config : SimulationConfig)
    (g0 : GState) : SimulationResult × GState :=
  let g := seedReset config.seed g0
  let n := config.duration
  let dt := config.dt
  let sigma := config.noise_level
  let r := linspaceQ (-1) (1 / 10) n
  let d0 := drawRandn noise g
  let x0 := -1 + d0.1 * (1 / 100)
  let step := iterSim
    (fun i x gi =>
      let drift := r.getD (i - 1) 0 + x * x
      let d := drawRandn noise gi
      (min 5 (max (-5) (x + drift * dt + sigma * rsqrt dt * d.1)), d.2))
    (n - 1) 1 x0 d0.2
  let x := x0 :: step.1
  (⟨(List.range n).map (fun (i : ℕ) => (i : ℚ) * dt), x, r,
    find_transition_index rsqrt x TransMethod.derivative 30 (1 / 10),
    TransitionType.SADDLE_NODE, config, compute_variance_trajectory x 50⟩, step.2)

/-- Embedding of `simulate_hopf`: complex state as a pair (re, im), the real part
exposed as the observable, the ground truth from the modulus via `variance_peak`. -/
def simulate_hopf (rsqrt : ℚ → ℚ) (noise : ℕ → ℕ → ℚ) (config : SimulationConfig)
    (g0 : GState) : SimulationResult × GState :=
  let g := seedReset config.seed g0
  let n := config.duration
  let dt := config.dt
  let sigma := config.noise_level
  let omega : ℚ := 2
  let r := linspaceQ (-(1 / 2)) (1 / 2) n
  let z0 : ℚ × ℚ := (1 / 100, 1 / 100)
  let step := iterSim
    (fun i z gi =>
      let rr := r.getD (i - 1) 0 - (z.1 * z.1 + z.2 * z.2)
      let dre := drawRandn noise gi
      let dim := drawRandn noise dre.2
      let scale := sigma * rsqrt dt / rsqrt 2
      ((z.1 + (rr * z.1 - omega * z.2) * dt + scale * dre.1,
        z.2 + (rr * z.2 + omega * z.1) * dt + scale * dim.1), dim.2))
    (n - 1) 1 z0 g
  let z := z0 :: step.1
  let x := z.map Prod.fst
  (⟨(List.range n).map (fun (i : ℕ) => (i : ℚ) * dt), x, r,
    find_transition_index rsqrt (z.map (fun p => rsqrt (p.1 * p.1 + p.2 * p.2)))
      TransMethod.variance_peak 30 (1 / 10),
    TransitionType.HOPF, config, compute_variance_trajectory x 50⟩, step.2)

/-- Embedding of `simulate_transcritical` (state clamped to `[-3, 3]`). -/
def simulate_transcritical (rsqrt : ℚ → ℚ) (noise : ℕ → ℕ → ℚ) (config : SimulationConfig)
    (g0 : GState) : SimulationResult × GState :=
  let g := seedReset config.seed g0
  let n := config.duration
  let dt := config.dt
  let sigma := config.noise_level
  let r := linspaceQ (-(1 / 2)) (1 / 2) n
  let x0 : ℚ := 1 / 100
  let step := iterSim
    (fun i x gi =>
      let drift := r.getD (i - 1) 0 * x - x * x
      let d := drawRandn noise gi
      (min 3 (max (-3) (x + drift * dt + sigma * rsqrt dt * d.1)), d.2))
    (n - 1) 1 x0 g
  let x := x0 :: step.1
  (⟨(List.range n).map (fun (i : ℕ) => (i : ℚ) * dt), x, r,
    find_transition_index rsqrt x TransMethod.derivative 30 (1 / 10),
    TransitionType.TRANSCRITICAL, config, compute_variance_trajectory x 50⟩, step.2)

/-- Embedding of `simulate_nucleation`: double-well drift, noise shrinking near
the targeted index (commitment), and the corrective exponential pull (through the
abstract `rexp`) when the state has not crossed by the target. -/
def simulate_nucleation (rsqrt rexp : ℚ → ℚ) (noise : ℕ → ℕ → ℚ)
    (config : SimulationConfig) (g0 : GState) : SimulationResult × GState :=
  let g := seedReset config.seed g0
  let n := config.duration
  let dt := config.dt
  let sigma := config.noise_level
  let trans_target := (⌊(n : ℚ) * config.transition_fraction⌋).toNat
  let x0 : ℚ := -1
  let step := iterSim
    (fun i x gi =>
      let drift := -4 * x * (x * x - 1) + (1 / 1000) * ((i : ℚ) / (n : ℚ))
      let dist := (|(i : ℤ) - (trans_target : ℤ)| : ℤ) / (n : ℚ)
      let commitment_factor := max (1 / 5) (min 1 (dist * 4))
      let d := drawRandn noise gi
      (x + drift * dt + sigma * commitment_factor * rsqrt dt * d.1, d.2))
    (n - 1) 1 x0 g
  let x := x0 :: step.1
  let xf :=
    if x.getD trans_target 0 < 0 then
      (List.range n).map
        (fun j =>
          if trans_target ≤ j then
            x.getD j 0 + (3 / 10) * (1 - rexp (-((j - trans_target : ℕ) : ℚ) / 30))
          else x.getD j 0)
    else x
  (⟨(List.range n).map (fun (i : ℕ) => (i : ℚ) * dt), xf, linspaceQ 0 1 n,
    find_transition_index rsqrt xf TransMethod.derivative 30 (1 / 10),
    TransitionType.NUCLEATION, config, compute_variance_trajectory xf 50⟩, step.2)

/-- Embedding of `simulate_commitment`: joint state (x, commitment level). -/
def simulate_commitment (rsqrt : ℚ → ℚ) (noise : ℕ → ℕ → ℚ) (config : SimulationConfig)
    (g0 : GState) : SimulationResult × GState :=
  let g := seedReset config.seed g0
  let n := config.duration
  let dt := config.dt
  let sigma := config.noise_level
  let step := iterSim
    (fun i xc gi =>
      let ci := min 1 (xc.2 + 1 / 1000 + (1 / 500) * ((i : ℚ) / (n : ℚ)))
      let noise_factor := 1 - (17 / 20) * ci
      let drift := if ci < 7 / 10 then -(1 / 20) * xc.1 else (3 / 10) * (1 - xc.1)
      let d := drawRandn noise gi
      ((xc.1 + drift * dt + sigma * noise_factor * rsqrt dt * d.1, ci), d.2))
    (n - 1) 1 ((0 : ℚ), (0 : ℚ)) g
  let xc := ((0 : ℚ), (0 : ℚ)) :: step.1
  let x := xc.map Prod.fst
  (⟨(List.range n).map (fun (i : ℕ) => (i : ℚ) * dt), x, xc.map Prod.snd,
    find_transition_index rsqrt x TransMethod.derivative 30 (1 / 10),
    TransitionType.COMMITMENT, config, compute_variance_trajectory x 50⟩, step.2)

/-- Embedding of the `simulate` dispatch. -/
def simulate (rsqrt rexp : ℚ → ℚ) (noise : ℕ → ℕ → ℚ) (config : SimulationConfig)
    (g0 : GState) : SimulationResult × GState :=
  match config.transition_type with
  | TransitionType.PITCHFORK => simulate_pitchfork rsqrt noise config g0
  | TransitionType.SADDLE_NODE => simulate_saddle_node rsqrt noise config g0
  | TransitionType.HOPF => simulate_hopf rsqrt noise config g0
  | TransitionType.TRANSCRITICAL => simulate_transcritical rsqrt noise config g0
  | TransitionType.NUCLEATION => simulate_nucleation rsqrt rexp noise config g0
  | TransitionType.COMMITMENT => simulate_commitment rsqrt noise config g0

/-- One (simulation, detector) evaluation as the harness classification loop of
`EvaluationHarness.run_experiment` sees it: the detector's flag and index, and
the simulation's ground-truth transition index. -/
structure DetectionOutcome where
  detected : Bool
  index : Option ℕ
  true_index : ℕ
deriving DecidableEq

/-- Test `detection.detected and detection.detection_index is not None`. -/
def OutcomeFired (o : DetectionOutcome) : Bool := o.detected && o.index.isSome

/-- Test `abs(detection_index - transition_index) <= detection_tolerance`. -/
def withinTol (o : DetectionOutcome) (tol : ℕ) : Bool :=
  match o.index with
  | some i => decide (|(i : ℤ) - (o.true_index : ℤ)| ≤ (tol : ℤ))
  | none => false

/-- True-positive classification of one pair at tolerance `tol`. -/
def isTruePositive (o : DetectionOutcome) (tol : ℕ) : Bool := OutcomeFired o && withinTol o tol

/-- False-positive classification (fired, but outside tolerance). -/
def isFalsePositive (o : DetectionOutcome) (tol : ℕ) : Bool := OutcomeFired o && !withinTol o tol

/-- False-negative classification (did not fire). -/
def isFalseNegative (o : DetectionOutcome) : Bool := !OutcomeFired o

/-- Confusion counts of `EvaluationMetrics` that the classification loop updates;
`true_negatives` is initialized to 0 and the loop has no branch incrementing it. -/
structure EvalCounts where
  true_positives : ℕ
  false_positives : ℕ
  false_negatives : ℕ
  true_negatives : ℕ
deriving DecidableEq

/-- One iteration of the classification loop (`harness.py` lines 224-240). -/
def stepCounts (tol : ℕ) (c : EvalCounts) (o : DetectionOutcome) : EvalCounts :=
  if OutcomeFired o then
    if withinTol o tol then
      ⟨c.true_positives + 1, c.false_positives, c.false_negatives, c.true_negatives⟩
    else ⟨c.true_positives, c.false_positives + 1, c.false_negatives, c.true_negatives⟩
  else ⟨c.true_positives, c.false_positives, c.false_negatives + 1, c.true_negatives⟩

/-- Classification of a detector's outcomes over a corpus: fold of the loop body
from the zero-initialized metrics. -/
def runCounts (tol : ℕ) (outcomes : List DetectionOutcome) : EvalCounts :=
  outcomes.foldl (stepCounts tol) ⟨0, 0, 0, 0⟩

/-- Precision property of `EvaluationMetrics`: `TP/(TP+FP)`, 0 on empty denominator. -/
def precision (c : EvalCounts) : ℚ :=
  if c.true_positives + c.false_positives = 0 then 0
  else (c.true_positives : ℚ) / ((c.true_positives : ℚ) + (c.false_positives : ℚ))

/-- Recall property of `EvaluationMetrics` (named `recallOf`; `recall` is a reserved command): `TP/(TP+FN)`, 0 on empty denominator. -/
def recallOf (c : EvalCounts) : ℚ :=
  if c.true_positives + c.false_negatives = 0 then 0
  else (c.true_positives : ℚ) / ((c.true_positives : ℚ) + (c.false_negatives : ℚ))

/-- Error field of the detailed per-simulation record (`harness.py` lines 246-247):
`detection.detection_index - transition_index if detection.detection_index else
None`.  The Python conditional tests truthiness, so index 0 also yields `None`. -/
def detectionRecordError (detection_index : Option ℕ) (true_index : ℕ) : Option ℤ :=
  match detection_index with
  | some i => if i = 0 then none else some ((i : ℤ) - (true_index : ℤ))
  | none => none

unseal Rat.add Rat.sub Rat.mul Rat.inv

/-- Acceptance test of the sustained-crossing search as the specification words
it: at least 70% of the `sustain_count` consecutive samples starting at `i`
satisfy the directional test, NaN samples ignored rather than counted against
the test.  This definition follows the specification sentence, for comparison
with the source-derived `sustainCond`. -/
def sustainCondSpec (signal : List F) (threshold : ℚ) (direction : Direction)
    (sustain_count : ℕ) (i : ℕ) : Bool :=
  decide ((7 : ℚ) / 10 * (sustain_count : ℚ) ≤
    ((sliceL i (i + sustain_count) signal).countP (fun v => dirTest direction v threshold) : ℚ))

/-- Sustained-crossing search as the specification words it: the first index at
or after `start_idx` whose `sustain_count`-sample window passes the 70% test
(the window must fit inside the signal), `none` when no such index exists. -/
def find_sustained_crossing_spec (signal : List F) (threshold : ℚ) (direction : Direction)
    (sustain_count : ℕ) (start_idx : ℕ) : Option ℕ :=
  scanFirst (sustainCondSpec signal threshold direction sustain_count) start_idx
    (signal.length + 1 - sustain_count - start_idx)

/-- C5, counterexample.  On twenty valid zero samples with threshold 1,
direction below, sustain count 10 and start index 0, every sample satisfies the
test, so the specification's description returns index 0; the code returns
`None`, because its loop starts at `max(start_idx, sustain_count) = 10` and
stops at `n - sustain_count = 10`, an empty range.  The claim's description of
`find_sustained_crossing` is therefore false as stated. -/
theorem sustained_crossing_spec_counterexample :
    find_sustained_crossing_spec (List.replicate 20 (some 0)) 1 Direction.below 10 0 = some 0 ∧
      find_sustained_crossing (List.replicate 20 (some 0)) 1 Direction.below 10 0 = none := by
  constructor
  · decide
  · decide

/-- C5, amended.  `find_sustained_crossing` returns `some i` exactly when `i` is
the first index in `[max(start_idx, sustain_count), n - sustain_count)` whose
sample is non-NaN, whose `sustain_count`-sample window has at least
`sustain_count / 2` non-NaN samples, and whose window satisfies the directional
test on strictly more than 70% of its `sustain_count` samples, NaN samples
counting as failures. -/
theorem find_sustained_crossing_characterization (signal : List F) (threshold : ℚ)
    (direction : Direction) (sc start_idx i : ℕ) :
    find_sustained_crossing signal threshold direction sc start_idx = some i ↔
      max start_idx sc ≤ i ∧ i + sc < signal.length ∧
        (signal.getD i none).isSome = true ∧
        sc / 2 ≤ (sliceL i (i + sc) signal).countP (fun v => v.isSome) ∧
        (7 : ℚ) / 10 <
          ((sliceL i (i + sc) signal).countP (fun v => dirTest direction v threshold) : ℚ) /
            (sc : ℚ) ∧
        ∀ j, max start_idx sc ≤ j → j < i →
          sustainCond signal threshold direction sc j = false := by
  simp only [find_sustained_crossing]
  rw [scanFirst_eq_some_iff]
  constructor
  · rintro ⟨h1, h2, h3, h4⟩
    simp only [sustainCond, Bool.and_eq_true, decide_eq_true_eq] at h3
    obtain ⟨hv, hcnt, hfrac⟩ := h3
    exact ⟨h1, by omega, hv, hcnt, hfrac, h4⟩
  · rintro ⟨h1, h2, h3, h4, h5, h6⟩
    refine ⟨h1, by omega, ?_, h6⟩
    simp only [sustainCond, Bool.and_eq_true, decide_eq_true_eq]
    exact ⟨h3, h4, h5⟩

theorem getD_none_of_all_none (l : List F) (i : ℕ) (h : ∀ x ∈ l, x = none) :
    l.getD i none = none := by
  induction l generalizing i with
  | nil => rfl
  | cons a as ih =>
    cases i with
    | zero => exact h a (List.mem_cons_self a as)
    | succ k => exact ih k (fun x hx => h x (List.mem_cons_of_mem a hx))

theorem validVals_nil_of_all_none (l : List F) (h : ∀ x ∈ l, x = none) :
    validVals l = [] := by
  induction l with
  | nil => rfl
  | cons a as ih =>
    have ha := h a (List.mem_cons_self a as)
    subst ha
    simpa [validVals] using ih (fun x hx => h x (List.mem_cons_of_mem _ hx))

theorem all_none_sliceL (lo hi : ℕ) (l : List F) (h : ∀ x ∈ l, x = none) :
    ∀ x ∈ sliceL lo hi l, x = none := fun x hx =>
  h x (List.mem_of_mem_drop (List.mem_of_mem_take hx))

theorem nanmean_all_none (l : List F) (h : ∀ x ∈ l, x = none) : nanmean l = none := by
  simp [nanmean, validVals_nil_of_all_none l h]

theorem nanmedian_all_none (l : List F) (h : ∀ x ∈ l, x = none) : nanmedian l = none := by
  simp [nanmedian, validVals_nil_of_all_none l h]

theorem rolling_variance_all_none (w : ℕ) (sig : List ℚ) (h : sig.length ≤ w) :
    ∀ x ∈ compute_rolling_variance w sig, x = none := by
  intro x hx
  simp only [compute_rolling_variance, List.mem_map, List.mem_range] at hx
  obtain ⟨i, hi, rfl⟩ := hx
  rw [if_neg (by omega : ¬ w ≤ i)]

theorem fsc_none_of_all_none (signal : List F) (t : ℚ) (d : Direction) (sc st : ℕ)
    (h : ∀ x ∈ signal, x = none) :
    find_sustained_crossing signal t d sc st = none := by
  simp only [find_sustained_crossing]
  apply scanFirst_eq_none_of_false
  intro j
  simp only [sustainCond, getD_none_of_all_none signal j h, Option.isSome_none,
    Bool.false_and]

theorem find_peak_none_of_all_none (signal : List F) (sf ef : ℚ)
    (h : ∀ x ∈ signal, x = none) : find_peak signal sf ef = none := by
  simp only [find_peak]
  rw [if_pos (validVals_nil_of_all_none _ (all_none_sliceL _ _ _ h))]

theorem all_none_zipWith_fdiv (as bs : List F) (h : ∀ x ∈ as, x = none) :
    ∀ x ∈ List.zipWith fdiv as bs, x = none := by
  induction as generalizing bs with
  | nil => intro x hx; simp at hx
  | cons a as2 ih =>
    intro x hx
    cases bs with
    | nil => simp at hx
    | cons b bs2 =>
      simp only [List.zipWith_cons_cons, List.mem_cons] at hx
      rcases hx with rfl | hx
      · rw [h a (List.mem_cons_self a as2)]; cases b <;> rfl
      · exact ih bs2 (fun y hy => h y (List.mem_cons_of_mem _ hy)) x hx

theorem all_none_map_fabs (l : List F) (h : ∀ x ∈ l, x = none) :
    ∀ x ∈ l.map fabs, x = none := by
  intro x hx
  simp only [List.mem_map] at hx
  obtain ⟨y, hy, rfl⟩ := hx
  rw [h y hy]; rfl

theorem foldl_fadd_none (l : List F) : l.foldl fadd none = none := by
  induction l with
  | nil => rfl
  | cons a as ih =>
    simp only [List.foldl_cons]
    have ha : fadd none a = none := by cases a <;> rfl
    rw [ha]; exact ih

theorem foldl_fadd_all_none (l : List F) (acc : F) (hl : l ≠ []) (h : ∀ x ∈ l, x = none) :
    l.foldl fadd acc = none := by
  cases l with
  | nil => exact absurd rfl hl
  | cons a as =>
    rw [h a (List.mem_cons_self a as)]
    simp only [List.foldl_cons]
    have ha : fadd acc none = none := by cases acc <;> rfl
    rw [ha]; exact foldl_fadd_none as

theorem convolveFull_all_none (a k : List F) (ha : ∀ x ∈ a, x = none) (hk : k ≠ []) :
    ∀ x ∈ convolveFull a k, x = none := by
  intro x hx
  simp only [convolveFull, List.mem_map, List.mem_range] at hx
  obtain ⟨m, hm, rfl⟩ := hx
  have hkl : 1 ≤ k.length := List.length_pos.mpr hk
  apply foldl_fadd_all_none
  · intro hcon
    have := congrArg List.length hcon
    simp only [List.length_map, List.length_range, List.length_nil] at this
    omega
  · intro y hy
    simp only [List.mem_map, List.mem_range] at hy
    obtain ⟨t, ht, rfl⟩ := hy
    rw [getD_none_of_all_none a _ ha]
    cases k.getD (m - (m + 1 - k.length + t)) none <;> rfl

theorem convolveSame_all_none (a k : List F) (ha : ∀ x ∈ a, x = none) (hk : k ≠ []) :
    ∀ x ∈ convolveSame a k, x = none :=
  all_none_sliceL _ _ _ (convolveFull_all_none a k ha hk)

theorem gradientF_all_none (a : List F) (h : ∀ x ∈ a, x = none) :
    ∀ x ∈ gradientF a, x = none := by
  intro x hx
  simp only [gradientF] at hx
  by_cases hl : a.length < 2
  · rw [if_pos hl] at hx; exact h x hx
  · rw [if_neg hl] at hx
    simp only [List.mem_map, List.mem_range] at hx
    obtain ⟨i, hi, rfl⟩ := hx
    by_cases h0 : i = 0
    · rw [if_pos h0, getD_none_of_all_none a 1 h, getD_none_of_all_none a 0 h]; rfl
    · rw [if_neg h0]
      by_cases h1 : i = a.length - 1
      · rw [if_pos h1, getD_none_of_all_none a i h, getD_none_of_all_none a (i - 1) h]; rfl
      · rw [if_neg h1, getD_none_of_all_none a (i + 1) h, getD_none_of_all_none a (i - 1) h]
        rfl

theorem ratioTrace_all_none (p : VarianceRatioDetector) (sig : List ℚ)
    (h : sig.length ≤ p.window) :
    ∀ x ∈ VarianceRatioDetector.ratioTrace p sig, x = none := by
  simp only [VarianceRatioDetector.ratioTrace]
  exact all_none_zipWith_fdiv _ _ (rolling_variance_all_none _ _ h)

theorem vrDetect_short (p : VarianceRatioDetector) (sig : List ℚ)
    (h : sig.length ≤ p.window) :
    (VarianceRatioDetector.detect p sig).detected = false ∧
      (VarianceRatioDetector.detect p sig).detection_index = none := by
  simp only [VarianceRatioDetector.detect]
  rw [fsc_none_of_all_none _ _ _ _ _ (ratioTrace_all_none p sig h),
    fsc_none_of_all_none _ _ _ _ _ (ratioTrace_all_none p sig h)]
  exact ⟨rfl, rfl⟩

theorem vdDetect_short (p : VarianceDerivativeDetector) (sig : List ℚ)
    (h : sig.length ≤ p.window) :
    (VarianceDerivativeDetector.detect p sig).detected = false ∧
      (VarianceDerivativeDetector.detect p sig).detection_index = none := by
  have hvar := rolling_variance_all_none p.window sig h
  have hder : ∀ x ∈ (List.range (compute_rolling_variance p.window sig).length).map
      (fun i =>
        if p.derivative_window + p.window ≤ i then
          match (compute_rolling_variance p.window sig).getD i none,
            (compute_rolling_variance p.window sig).getD (i - p.derivative_window) none with
          | some vi, some vj =>
              (match nanmean (sliceL (i - p.derivative_window) (i + 1)
                  (compute_rolling_variance p.window sig)) with
               | some m => if 1 / 10 ^ 10 < m then some ((vi - vj) / m) else none
               | none => none)
          | _, _ => none
        else none), x = none := by
    intro x hx
    simp only [List.mem_map, List.mem_range] at hx
    obtain ⟨i, hi, rfl⟩ := hx
    by_cases hc : p.derivative_window + p.window ≤ i
    · rw [if_pos hc, getD_none_of_all_none _ i hvar]
    · rw [if_neg hc]
  simp only [VarianceDerivativeDetector.detect]
  rw [find_peak_none_of_all_none _ _ _ (all_none_map_fabs _ hder)]
  exact ⟨rfl, rfl⟩

theorem viDetect_short (rsqrt : ℚ → ℚ) (p : VarianceInflectionDetector) (sig : List ℚ)
    (h : sig.length ≤ p.window) (hsw : 0 < p.smooth_window) :
    (VarianceInflectionDetector.detect rsqrt p sig).detected = false ∧
      (VarianceInflectionDetector.detect rsqrt p sig).detection_index = none := by
  have hvar := rolling_variance_all_none p.window sig h
  have hmed := nanmedian_all_none _ hvar
  have hvv : ∀ x ∈ (compute_rolling_variance p.window sig).map
      (fun v => match v with
        | none => nanmedian (compute_rolling_variance p.window sig)
        | some x => some x), x = none := by
    intro x hx
    simp only [List.mem_map] at hx
    obtain ⟨v, hv, rfl⟩ := hx
    rw [hvar v hv]
    exact hmed
  have hk : (List.replicate p.smooth_window (some (1 / (p.smooth_window : ℚ))) : List F) ≠ [] := by
    intro hcon
    have := congrArg List.length hcon
    simp only [List.length_replicate, List.length_nil] at this
    omega
  have hinf := all_none_map_fabs _ (gradientF_all_none _ (gradientF_all_none _
    (convolveSame_all_none _ _ hvv hk)))
  simp only [VarianceInflectionDetector.detect]
  rw [find_peak_none_of_all_none _ _ _ hinf]
  exact ⟨rfl, rfl⟩

theorem rzDetect_short (rsqrt : ℚ → ℚ) (p : RollingZScoreDetector) (sig : List ℚ)
    (h : sig.length ≤ p.window) :
    (RollingZScoreDetector.detect rsqrt p sig).detected = false ∧
      (RollingZScoreDetector.detect rsqrt p sig).detection_index = none := by
  have hvar := rolling_variance_all_none p.window sig h
  have hz : ∀ x ∈ (List.range (compute_rolling_variance p.window sig).length).map
      (fun i =>
        if p.zscore_window + p.window ≤ i then
          let valid_data := validVals (sliceL (i - p.zscore_window) (i - p.window / 2)
            (compute_rolling_variance p.window sig))
          if 10 < valid_data.length then
            let m := meanQ valid_data
            let s := rsqrt (popVar valid_data)
            if 1 / 10 ^ 10 < s then
              match (compute_rolling_variance p.window sig).getD i none with
              | some vi => some ((vi - m) / s)
              | none => none
            else none
          else none
        else none), x = none := by
    intro x hx
    simp only [List.mem_map, List.mem_range] at hx
    obtain ⟨i, hi, rfl⟩ := hx
    by_cases hc : p.zscore_window + p.window ≤ i
    · rw [if_pos hc]
      simp only [validVals_nil_of_all_none _ (all_none_sliceL _ _ _ hvar)]
      rfl
    · rw [if_neg hc]
  simp only [RollingZScoreDetector.detect]
  rw [fsc_none_of_all_none _ _ _ _ _ (all_none_map_fabs _ hz)]
  exact ⟨rfl, rfl⟩

theorem cuDetect_short (rsqrt : ℚ → ℚ) (p : CUSUMDetector) (sig : List ℚ)
    (h : sig.length ≤ p.window) :
    (CUSUMDetector.detect rsqrt p sig).detected = false ∧
      (CUSUMDetector.detect rsqrt p sig).detection_index = none := by
  have hnil := validVals_nil_of_all_none _ (rolling_variance_all_none p.window sig h)
  simp only [CUSUMDetector.detect, hnil]
  exact ⟨rfl, rfl⟩

theorem cpDetect_short (p : ChangePointDetector) (sig : List ℚ)
    (h : sig.length ≤ p.window) (hms : 0 < p.min_segment) :
    (ChangePointDetector.detect p sig).detected = false ∧
      (ChangePointDetector.detect p sig).detection_index = none := by
  have hnil := validVals_nil_of_all_none _ (rolling_variance_all_none p.window sig h)
  simp only [ChangePointDetector.detect, hnil]
  rw [if_pos (by simp; omega : (([] : List ℚ)).length < 2 * p.min_segment)]
  exact ⟨rfl, rfl⟩

/-- C2, amended.  For every nonempty signal of length at most the detector's
window, each of the six base detectors (constructed with that window, the other
parameters at their source defaults) returns `detected = False` with
`detection_index = None`: every rolling-variance sample is NaN, so no detection
path can fire.  The claim's original `3×window` bound is refuted by
`short_signal_counterexample`.  The embedding is total on these inputs, which
models the never-raises clause. -/
theorem short_signal_degrades_gracefully (rsqrt : ℚ → ℚ) (w : ℕ) (signal : List ℚ)
    (h1 : 1 ≤ signal.length) (h2 : signal.length ≤ w) :
    ((VarianceRatioDetector.detect (VarianceRatioDetector.ofWindow w) signal).detected = false ∧
      (VarianceRatioDetector.detect (VarianceRatioDetector.ofWindow w)
        signal).detection_index = none) ∧
    ((VarianceDerivativeDetector.detect (VarianceDerivativeDetector.ofWindow w)
        signal).detected = false ∧
      (VarianceDerivativeDetector.detect (VarianceDerivativeDetector.ofWindow w)
        signal).detection_index = none) ∧
    ((VarianceInflectionDetector.detect rsqrt (VarianceInflectionDetector.ofWindow w)
        signal).detected = false ∧
      (VarianceInflectionDetector.detect rsqrt (VarianceInflectionDetector.ofWindow w)
        signal).detection_index = none) ∧
    ((RollingZScoreDetector.detect rsqrt (RollingZScoreDetector.ofWindow w)
        signal).detected = false ∧
      (RollingZScoreDetector.detect rsqrt (RollingZScoreDetector.ofWindow w)
        signal).detection_index = none) ∧
    ((CUSUMDetector.detect rsqrt (CUSUMDetector.ofWindow w) signal).detected = false ∧
      (CUSUMDetector.detect rsqrt (CUSUMDetector.ofWindow w) signal).detection_index = none) ∧
    ((ChangePointDetector.detect (ChangePointDetector.ofWindow w) signal).detected = false ∧
      (ChangePointDetector.detect (ChangePointDetector.ofWindow w)
        signal).detection_index = none) :=
  ⟨vrDetect_short _ _ h2, vdDetect_short _ _ h2,
    viDetect_short rsqrt _ _ h2 (by norm_num [VarianceInflectionDetector.ofWindow]),
    rzDetect_short rsqrt _ _ h2, cuDetect_short rsqrt _ _ h2,
    cpDetect_short _ _ h2 (by norm_num [ChangePointDetector.ofWindow])⟩

theorem short_signal_degrades_gracefully_witness :
    1 ≤ ([1, 2] : List ℚ).length ∧ ([1, 2] : List ℚ).length ≤ 3 ∧
      (((VarianceRatioDetector.detect (VarianceRatioDetector.ofWindow 3)
          [1, 2]).detected = false ∧
        (VarianceRatioDetector.detect (VarianceRatioDetector.ofWindow 3)
          [1, 2]).detection_index = none) ∧
      ((VarianceDerivativeDetector.detect (VarianceDerivativeDetector.ofWindow 3)
          [1, 2]).detected = false ∧
        (VarianceDerivativeDetector.detect (VarianceDerivativeDetector.ofWindow 3)
          [1, 2]).detection_index = none) ∧
      ((VarianceInflectionDetector.detect (fun _ => 0) (VarianceInflectionDetector.ofWindow 3)
          [1, 2]).detected = false ∧
        (VarianceInflectionDetector.detect (fun _ => 0) (VarianceInflectionDetector.ofWindow 3)
          [1, 2]).detection_index = none) ∧
      ((RollingZScoreDetector.detect (fun _ => 0) (RollingZScoreDetector.ofWindow 3)
          [1, 2]).detected = false ∧
        (RollingZScoreDetector.detect (fun _ => 0) (RollingZScoreDetector.ofWindow 3)
          [1, 2]).detection_index = none) ∧
      ((CUSUMDetector.detect (fun _ => 0) (CUSUMDetector.ofWindow 3) [1, 2]).detected = false ∧
        (CUSUMDetector.detect (fun _ => 0) (CUSUMDetector.ofWindow 3)
          [1, 2]).detection_index = none) ∧
      ((ChangePointDetector.detect (ChangePointDetector.ofWindow 3) [1, 2]).detected = false ∧
        (ChangePointDetector.detect (ChangePointDetector.ofWindow 3)
          [1, 2]).detection_index = none)) :=
  ⟨by decide, by decide,
    short_signal_degrades_gracefully (fun _ => 0) 3 [1, 2] (by decide) (by decide)⟩

/-- Quiet-tail signal: 55 alternating ±1 samples followed by 43 zero samples. -/
def shortClaimSignal : List ℚ :=
  (List.range 98).map (fun j => if j < 55 then (if j % 2 = 0 then 1 else -1) else 0)

set_option maxRecDepth 40000 in
/-- C2, counterexample to the claimed 3×window bound: this 98-sample signal is
strictly shorter than 3×33, yet the VarianceRatio detector constructed with
window 33 fires on it (sustained drop of the variance-to-baseline ratio after
the signal goes quiet).  No square root enters this computation, so the result
does not depend on any `rsqrt` model. -/
theorem short_signal_counterexample :
    shortClaimSignal.length < 3 * 33 ∧
      (VarianceRatioDetector.detect (VarianceRatioDetector.ofWindow 33)
        shortClaimSignal).detected = true := by
  constructor
  · decide
  · decide

theorem vr_index_iff (p : VarianceRatioDetector) (sig : List ℚ) :
    (VarianceRatioDetector.detect p sig).detection_index.isSome =
      (VarianceRatioDetector.detect p sig).detected := by
  simp only [VarianceRatioDetector.detect]
  split <;> rfl

theorem vd_index_iff (p : VarianceDerivativeDetector) (sig : List ℚ) :
    (VarianceDerivativeDetector.detect p sig).detection_index.isSome =
      (VarianceDerivativeDetector.detect p sig).detected := by
  simp only [VarianceDerivativeDetector.detect]
  split
  · split
    · split <;> rfl
    · rfl
  · rfl

theorem vi_index_iff (rsqrt : ℚ → ℚ) (p : VarianceInflectionDetector) (sig : List ℚ) :
    (VarianceInflectionDetector.detect rsqrt p sig).detection_index.isSome =
      (VarianceInflectionDetector.detect rsqrt p sig).detected := by
  simp only [VarianceInflectionDetector.detect]
  split
  · split <;> rfl
  · rfl

theorem rz_index_iff (rsqrt : ℚ → ℚ) (p : RollingZScoreDetector) (sig : List ℚ) :
    (RollingZScoreDetector.detect rsqrt p sig).detection_index.isSome =
      (RollingZScoreDetector.detect rsqrt p sig).detected := by
  simp only [RollingZScoreDetector.detect]
  split <;> rfl

theorem cu_index_iff (rsqrt : ℚ → ℚ) (p : CUSUMDetector) (sig : List ℚ) :
    (CUSUMDetector.detect rsqrt p sig).detection_index.isSome =
      (CUSUMDetector.detect rsqrt p sig).detected := by
  simp only [CUSUMDetector.detect]
  split
  · rfl
  · split <;> rfl

theorem cp_index_iff (p : ChangePointDetector) (sig : List ℚ) :
    (ChangePointDetector.detect p sig).detection_index.isSome =
      (ChangePointDetector.detect p sig).detected := by
  simp only [ChangePointDetector.detect]
  split
  · rfl
  · split
    · rw [apply_ite DetectionResult.detection_index, apply_ite Option.isSome,
        apply_ite DetectionResult.detected]
      simp
    · rfl

theorem en_index_iff (rsqrt : ℚ → ℚ) (p : EnsembleDetector) (sig : List ℚ) :
    (EnsembleDetector.detect rsqrt p sig).detection_index.isSome =
      (EnsembleDetector.detect rsqrt p sig).detected := by
  simp only [EnsembleDetector.detect]
  split
  · rfl
  · split <;> rfl

/-- C9.  For each of the six base detectors and the ensemble, at every input
signal and every parameterization, the returned result carries a detection index
exactly when `detected` is true (each return site of every `detect` sets the two
fields consistently). -/
theorem detection_index_present_iff_detected (rsqrt : ℚ → ℚ)
    (p1 : VarianceRatioDetector) (p2 : VarianceDerivativeDetector)
    (p3 : VarianceInflectionDetector) (p4 : RollingZScoreDetector) (p5 : CUSUMDetector)
    (p6 : ChangePointDetector) (p7 : EnsembleDetector) (sig : List ℚ) :
    (VarianceRatioDetector.detect p1 sig).detection_index.isSome =
        (VarianceRatioDetector.detect p1 sig).detected ∧
      (VarianceDerivativeDetector.detect p2 sig).detection_index.isSome =
        (VarianceDerivativeDetector.detect p2 sig).detected ∧
      (VarianceInflectionDetector.detect rsqrt p3 sig).detection_index.isSome =
        (VarianceInflectionDetector.detect rsqrt p3 sig).detected ∧
      (RollingZScoreDetector.detect rsqrt p4 sig).detection_index.isSome =
        (RollingZScoreDetector.detect rsqrt p4 sig).detected ∧
      (CUSUMDetector.detect rsqrt p5 sig).detection_index.isSome =
        (CUSUMDetector.detect rsqrt p5 sig).detected ∧
      (ChangePointDetector.detect p6 sig).detection_index.isSome =
        (ChangePointDetector.detect p6 sig).detected ∧
      (EnsembleDetector.detect rsqrt p7 sig).detection_index.isSome =
        (EnsembleDetector.detect rsqrt p7 sig).detected :=
  ⟨vr_index_iff p1 sig, vd_index_iff p2 sig, vi_index_iff rsqrt p3 sig,
    rz_index_iff rsqrt p4 sig, cu_index_iff rsqrt p5 sig, cp_index_iff p6 sig,
    en_index_iff rsqrt p7 sig⟩

/-- C3.  The ensemble fires exactly when at least one sub-detector voted and the
vote count `v` satisfies `v / 6 ≥ threshold`, i.e. `v ≥ ⌈threshold · 6⌉`; in
particular it never reports `detected = True` with fewer voting sub-detectors
than `⌈threshold · 6⌉`. -/
theorem ensemble_vote_threshold_iff (rsqrt : ℚ → ℚ) (p : EnsembleDetector) (sig : List ℚ) :
    (EnsembleDetector.detect rsqrt p sig).detected = true ↔
      1 ≤ (ensembleDetections rsqrt p sig).length ∧
        ⌈(6 : ℚ) * p.threshold⌉ ≤ ((ensembleDetections rsqrt p sig).length : ℤ) := by
  have hlen : (ensembleSubResults rsqrt p sig).length = 6 := rfl
  simp only [EnsembleDetector.detect, hlen, Nat.cast_ofNat]
  by_cases h0 : (ensembleDetections rsqrt p sig).length = 0
  · rw [if_pos h0]
    simp [h0]
  · rw [if_neg h0]
    by_cases hf : ((ensembleDetections rsqrt p sig).length : ℚ) / (6 : ℚ) < p.threshold
    · rw [if_pos hf]
      simp only [Bool.false_eq_true, false_iff, not_and, not_le]
      intro hge
      have h6 : (6 : ℚ) * p.threshold > ((ensembleDetections rsqrt p sig).length : ℚ) := by
        rw [div_lt_iff₀ (by norm_num : (0 : ℚ) < 6)] at hf
        linarith
      have := Int.lt_ceil.mpr (by push_cast; linarith :
        ((((ensembleDetections rsqrt p sig).length : ℤ)) : ℚ) < (6 : ℚ) * p.threshold)
      exact this
    · rw [if_neg hf]
      simp only [true_iff]
      refine ⟨by omega, ?_⟩
      rw [not_lt] at hf
      have h6 : (6 : ℚ) * p.threshold ≤ ((ensembleDetections rsqrt p sig).length : ℚ) := by
        rw [le_div_iff₀ (by norm_num : (0 : ℚ) < 6)] at hf
        linarith
      exact Int.ceil_le.mpr (by push_cast; linarith)

/-- C6, amended.  The VarianceRatio detector fires exactly when one of the two
sustained crossings (ratio below `threshold`, or ratio above `1/threshold`)
exists; when both exist the earlier index is reported; the reported confidence
is `min 1 |1 - r|` where `r` is the ratio at the reported index (taken as 1 when
that ratio is NaN) — the claim as stated omits the clamp at 1, refuted by
`variance_ratio_confidence_counterexample`; and the diagnostic trace returned in
the result is the ratio itself. -/
theorem variance_ratio_characterization (p : VarianceRatioDetector) (signal : List ℚ) :
    (VarianceRatioDetector.detect p signal).detected =
        ((find_sustained_crossing (VarianceRatioDetector.ratioTrace p signal) p.threshold
            Direction.below p.sustain p.baseline_window).isSome ||
          (find_sustained_crossing (VarianceRatioDetector.ratioTrace p signal) (1 / p.threshold)
            Direction.above p.sustain p.baseline_window).isSome) ∧
      (VarianceRatioDetector.detect p signal).detection_index =
        (match
          find_sustained_crossing (VarianceRatioDetector.ratioTrace p signal) p.threshold
            Direction.below p.sustain p.baseline_window,
          find_sustained_crossing (VarianceRatioDetector.ratioTrace p signal) (1 / p.threshold)
            Direction.above p.sustain p.baseline_window with
          | none, none => none
          | some a, none => some a
          | none, some b => some b
          | some a, some b => some (min a b)) ∧
      (VarianceRatioDetector.detect p signal).confidence =
        (match (VarianceRatioDetector.detect p signal).detection_index with
          | none => 0
          | some d =>
              min 1 |1 - ((VarianceRatioDetector.ratioTrace p signal).getD d none).getD 1|) ∧
      (VarianceRatioDetector.detect p signal).signal =
        VarianceRatioDetector.ratioTrace p signal := by
  simp only [VarianceRatioDetector.detect]
  rcases h1 : find_sustained_crossing (VarianceRatioDetector.ratioTrace p signal) p.threshold
      Direction.below p.sustain p.baseline_window with - | a <;>
    rcases h2 : find_sustained_crossing (VarianceRatioDetector.ratioTrace p signal)
        (1 / p.threshold) Direction.above p.sustain p.baseline_window with - | b <;>
    simp

/-- Quiet-then-loud signal: 79 zero samples followed by 17 alternating ±1. -/
def confidenceClampSignal : List ℚ :=
  (List.range 96).map (fun j => if j < 79 then 0 else if (j - 79) % 2 = 0 then 1 else -1)

set_option maxRecDepth 40000 in
/-- C6, counterexample to the confidence clause.  On this signal the
default-parameter VarianceRatio detector fires at index 80, where the ratio
trace equals 243750000 (the 1e-10-floored baseline makes it huge); the claim
says the confidence equals `|1 - ratio| = 243749999`, but the code clamps it to
1. -/
theorem variance_ratio_confidence_counterexample :
    (VarianceRatioDetector.detect (VarianceRatioDetector.ofWindow 40)
        confidenceClampSignal).detected = true ∧
      (VarianceRatioDetector.detect (VarianceRatioDetector.ofWindow 40)
        confidenceClampSignal).detection_index = some 80 ∧
      (VarianceRatioDetector.detect (VarianceRatioDetector.ofWindow 40)
        confidenceClampSignal).signal.getD 80 none = some 243750000 ∧
      (VarianceRatioDetector.detect (VarianceRatioDetector.ofWindow 40)
        confidenceClampSignal).confidence = 1 ∧
      ¬((1 : ℚ) = |1 - (243750000 : ℚ)|) := by
  refine ⟨by decide, by decide, by decide, by decide, by decide⟩

/-- C1.  With a non-None seed, every simulator begins by resetting the global
random state (`np.random.seed`), so two runs of `simulate` with the same config
from arbitrary prior random states produce identical state arrays, control
parameter arrays, variance trajectories and transition indices, for any model of
`sqrt`, `exp` and the seeded Gaussian stream. -/
theorem simulate_seeded_deterministic (rsqrt rexp : ℚ → ℚ) (noise : ℕ → ℕ → ℚ)
    (config : SimulationConfig) (g1 g2 : GState) (s : ℕ) (h : config.seed = some s) :
    (simulate rsqrt rexp noise config g1).1.state =
        (simulate rsqrt rexp noise config g2).1.state ∧
      (simulate rsqrt rexp noise config g1).1.control_param =
        (simulate rsqrt rexp noise config g2).1.control_param ∧
      (simulate rsqrt rexp noise config g1).1.variance_trajectory =
        (simulate rsqrt rexp noise config g2).1.variance_trajectory ∧
      (simulate rsqrt rexp noise config g1).1.transition_index =
        (simulate rsqrt rexp noise config g2).1.transition_index := by
  have e : seedReset config.seed g1 = seedReset config.seed g2 := by rw [h]; rfl
  have key : simulate rsqrt rexp noise config g1 = simulate rsqrt rexp noise config g2 := by
    cases ht : config.transition_type <;>
      simp only [simulate, ht, simulate_pitchfork, simulate_saddle_node, simulate_hopf,
        simulate_transcritical, simulate_nucleation, simulate_commitment] <;>
      rw [e]
  exact ⟨by rw [key], by rw [key], by rw [key], by rw [key]⟩

/-- Configuration used by concrete witnesses: a seeded two-step pitchfork run. -/
def witnessConfig : SimulationConfig :=
  ⟨TransitionType.PITCHFORK, 2, 1 / 100, 1 / 10, 3 / 5, some 7⟩

theorem simulate_seeded_deterministic_witness :
    witnessConfig.seed = some 7 ∧
      ((simulate (fun _ => 0) (fun _ => 0) (fun s k => (s : ℚ) + k) witnessConfig (1, 5)).1.state =
          (simulate (fun _ => 0) (fun _ => 0) (fun s k => (s : ℚ) + k) witnessConfig
            (9, 3)).1.state ∧
        (simulate (fun _ => 0) (fun _ => 0) (fun s k => (s : ℚ) + k) witnessConfig
            (1, 5)).1.control_param =
          (simulate (fun _ => 0) (fun _ => 0) (fun s k => (s : ℚ) + k) witnessConfig
            (9, 3)).1.control_param ∧
        (simulate (fun _ => 0) (fun _ => 0) (fun s k => (s : ℚ) + k) witnessConfig
            (1, 5)).1.variance_trajectory =
          (simulate (fun _ => 0) (fun _ => 0) (fun s k => (s : ℚ) + k) witnessConfig
            (9, 3)).1.variance_trajectory ∧
        (simulate (fun _ => 0) (fun _ => 0) (fun s k => (s : ℚ) + k) witnessConfig
            (1, 5)).1.transition_index =
          (simulate (fun _ => 0) (fun _ => 0) (fun s k => (s : ℚ) + k) witnessConfig
            (9, 3)).1.transition_index) :=
  ⟨rfl, simulate_seeded_deterministic (fun _ => 0) (fun _ => 0) (fun s k => (s : ℚ) + k)
    witnessConfig (1, 5) (9, 3) 7 rfl⟩

theorem compute_rolling_variance_length (w : ℕ) (sig : List ℚ) :
    (compute_rolling_variance w sig).length = sig.length := by
  simp [compute_rolling_variance]

theorem sliceL_length {α : Type} (lo hi : ℕ) (l : List α) :
    (sliceL lo hi l).length = min (hi - lo) (l.length - lo) := by
  simp [sliceL]

theorem find_transition_index_lt (rsqrt : ℚ → ℚ) (state : List ℚ) (method : TransMethod)
    (window : ℕ) (e : ℚ) (h : state ≠ []) :
    find_transition_index rsqrt state method window e < state.length := by
  have hn : 0 < state.length := List.length_pos.mpr h
  cases method with
  | derivative =>
    simp only [find_transition_index]
    exact Nat.lt_of_le_of_lt (Nat.min_le_right _ _) (by omega)
  | variance_peak =>
    simp only [find_transition_index]
    split
    · exact Nat.div_lt_self hn (by omega)
    · have hlen : ((List.range state.length).map
          (fun i => if i < (⌊(state.length : ℚ) * e⌋).toNat ∨
              (⌊(state.length : ℚ) * (1 - e)⌋).toNat ≤ i then 0
            else ((compute_variance_trajectory state window).getD i none).getD 0)).length =
          state.length := by
        rw [List.length_map, List.length_range]
      have hne : ((List.range state.length).map
          (fun i => if i < (⌊(state.length : ℚ) * e⌋).toNat ∨
              (⌊(state.length : ℚ) * (1 - e)⌋).toNat ≤ i then 0
            else ((compute_variance_trajectory state window).getD i none).getD 0)) ≠ [] := by
        intro hcon
        rw [hcon] at hlen
        simp only [List.length_nil] at hlen
        omega
      have h2 := argmaxQ_lt _ hne
      rw [hlen] at h2
      exact h2
  | state_threshold =>
    simp only [find_transition_index]
    split
    · exact Nat.div_lt_self hn (by omega)
    · rename_i c tail heq
      have hc : c ∈ (List.range (sliceL (⌊(state.length : ℚ) * e⌋).toNat
          (⌊(state.length : ℚ) * (1 - e)⌋).toNat state).length).filter
          (fun k => decide ((5 : ℚ) / 2 *
            (if rsqrt (popVar (state.take (max (⌊(state.length : ℚ) * e⌋).toNat
                (state.length / 5)))) < 1 / 10 ^ 10 then rsqrt (popVar state) / 3
              else rsqrt (popVar (state.take (max (⌊(state.length : ℚ) * e⌋).toNat
                (state.length / 5))))) <
            |(sliceL (⌊(state.length : ℚ) * e⌋).toNat
                (⌊(state.length : ℚ) * (1 - e)⌋).toNat state).getD k 0 -
              meanQ (state.take (max (⌊(state.length : ℚ) * e⌋).toNat
                (state.length / 5)))|)) := by
        rw [heq]
        exact List.mem_cons_self _ _
      have hc2 := (List.mem_filter.mp hc).1
      rw [List.mem_range, sliceL_length] at hc2
      omega

/-- C7.  For every configuration with positive duration, the simulation result
has time, state, control-parameter and variance-trajectory arrays of length
`duration`, and its transition index lies in `[0, duration)`, across all six
archetypes.  (In the embedding the nucleation simulator reads
`x[trans_target]` with a defaulted lookup; Python raises an IndexError there
when `transition_fraction` lies outside `[0, 1)`, which the interface contract
of the specification excludes.) -/
theorem fti_lt_of_length (rsqrt : ℚ → ℚ) (l : List ℚ) (m : TransMethod) (w : ℕ) (e : ℚ)
    (n : ℕ) (hn : 0 < n) (hl : l.length = n) :
    find_transition_index rsqrt l m w e < n := by
  have hne : l ≠ [] := by
    intro hcon
    rw [hcon] at hl
    simp only [List.length_nil] at hl
    omega
  exact hl ▸ find_transition_index_lt rsqrt l m w e hne

theorem simulate_length_invariants (rsqrt rexp : ℚ → ℚ) (noise : ℕ → ℕ → ℚ)
    (config : SimulationConfig) (g0 : GState) (hd : 0 < config.duration) :
    (simulate rsqrt rexp noise config g0).1.time.length = config.duration ∧
      (simulate rsqrt rexp noise config g0).1.state.length = config.duration ∧
      (simulate rsqrt rexp noise config g0).1.control_param.length = config.duration ∧
      (simulate rsqrt rexp noise config g0).1.variance_trajectory.length = config.duration ∧
      (simulate rsqrt rexp noise config g0).1.transition_index < config.duration := by
  cases ht : config.transition_type
  case PITCHFORK =>
    simp only [simulate, ht, simulate_pitchfork]
    refine ⟨by simp, by simp [iterSim_length]; omega, by simp [linspaceQ_length], ?_, ?_⟩
    · simp only [compute_variance_trajectory, compute_rolling_variance_length,
        List.length_cons, iterSim_length]
      omega
    · exact fti_lt_of_length rsqrt _ _ _ _ _ hd (by simp [iterSim_length]; omega)
  case SADDLE_NODE =>
    simp only [simulate, ht, simulate_saddle_node]
    refine ⟨by simp, by simp [iterSim_length]; omega, by simp [linspaceQ_length], ?_, ?_⟩
    · simp only [compute_variance_trajectory, compute_rolling_variance_length,
        List.length_cons, iterSim_length]
      omega
    · exact fti_lt_of_length rsqrt _ _ _ _ _ hd (by simp [iterSim_length]; omega)
  case HOPF =>
    simp only [simulate, ht, simulate_hopf]
    refine ⟨by simp, by simp [iterSim_length]; omega, by simp [linspaceQ_length], ?_, ?_⟩
    · simp only [compute_variance_trajectory, compute_rolling_variance_length,
        List.length_map, List.length_cons, iterSim_length]
      omega
    · exact fti_lt_of_length rsqrt _ _ _ _ _ hd (by simp [iterSim_length]; omega)
  case TRANSCRITICAL =>
    simp only [simulate, ht, simulate_transcritical]
    refine ⟨by simp, by simp [iterSim_length]; omega, by simp [linspaceQ_length], ?_, ?_⟩
    · simp only [compute_variance_trajectory, compute_rolling_variance_length,
        List.length_cons, iterSim_length]
      omega
    · exact fti_lt_of_length rsqrt _ _ _ _ _ hd (by simp [iterSim_length]; omega)
  case NUCLEATION =>
    simp only [simulate, ht, simulate_nucleation]
    refine ⟨by simp, ?_, by simp [linspaceQ_length], ?_, ?_⟩
    · split <;> simp [iterSim_length] <;> omega
    · simp only [compute_variance_trajectory]
      rw [compute_rolling_variance_length]
      split <;> simp [iterSim_length] <;> omega
    · refine fti_lt_of_length rsqrt _ _ _ _ _ hd ?_
      split <;> simp [iterSim_length] <;> omega
  case COMMITMENT =>
    simp only [simulate, ht, simulate_commitment]
    refine ⟨by simp, by simp [iterSim_length]; omega, by simp [iterSim_length]; omega, ?_, ?_⟩
    · simp only [compute_variance_trajectory, compute_rolling_variance_length,
        List.length_map, List.length_cons, iterSim_length]
      omega
    · exact fti_lt_of_length rsqrt _ _ _ _ _ hd (by simp [iterSim_length]; omega)

theorem simulate_length_invariants_witness :
    0 < witnessConfig.duration ∧
      ((simulate (fun _ => 0) (fun _ => 0) (fun s k => (s : ℚ) + k) witnessConfig
          (0, 0)).1.time.length = witnessConfig.duration ∧
        (simulate (fun _ => 0) (fun _ => 0) (fun s k => (s : ℚ) + k) witnessConfig
          (0, 0)).1.state.length = witnessConfig.duration ∧
        (simulate (fun _ => 0) (fun _ => 0) (fun s k => (s : ℚ) + k) witnessConfig
          (0, 0)).1.control_param.length = witnessConfig.duration ∧
        (simulate (fun _ => 0) (fun _ => 0) (fun s k => (s : ℚ) + k) witnessConfig
          (0, 0)).1.variance_trajectory.length = witnessConfig.duration ∧
        (simulate (fun _ => 0) (fun _ => 0) (fun s k => (s : ℚ) + k) witnessConfig
          (0, 0)).1.transition_index < witnessConfig.duration) :=
  ⟨by decide, simulate_length_invariants (fun _ => 0) (fun _ => 0) (fun s k => (s : ℚ) + k)
    witnessConfig (0, 0) (by decide)⟩

theorem foldl_stepCounts (tol : ℕ) (L : List DetectionOutcome) (c : EvalCounts) :
    L.foldl (stepCounts tol) c =
      ⟨c.true_positives + L.countP (fun o => isTruePositive o tol),
        c.false_positives + L.countP (fun o => isFalsePositive o tol),
        c.false_negatives + L.countP (fun o => isFalseNegative o),
        c.true_negatives⟩ := by
  induction L generalizing c with
  | nil => simp
  | cons o rest ih =>
    simp only [List.foldl_cons, List.countP_cons, ih]
    by_cases hf : OutcomeFired o
    · by_cases hw : withinTol o tol
      · simp only [stepCounts, isTruePositive, isFalsePositive, isFalseNegative, hf, hw,
          if_true, Bool.and_true, Bool.and_false, Bool.not_true, EvalCounts.mk.injEq]
        simp
        omega
      · simp only [stepCounts, isTruePositive, isFalsePositive, isFalseNegative, hf, hw,
          EvalCounts.mk.injEq]
        simp [hf, hw]
        omega
    · simp only [stepCounts, isTruePositive, isFalsePositive, isFalseNegative, hf,
        EvalCounts.mk.injEq]
      simp [hf]
      omega

theorem runCounts_fields (tol : ℕ) (L : List DetectionOutcome) :
    runCounts tol L =
      ⟨L.countP (fun o => isTruePositive o tol), L.countP (fun o => isFalsePositive o tol),
        L.countP (fun o => isFalseNegative o), 0⟩ := by
  have h := foldl_stepCounts tol L ⟨0, 0, 0, 0⟩
  simpa [runCounts] using h

theorem countP_tp_add_fp (tol : ℕ) (L : List DetectionOutcome) :
    L.countP (fun o => isTruePositive o tol) + L.countP (fun o => isFalsePositive o tol) =
      L.countP (fun o => OutcomeFired o) := by
  induction L with
  | nil => rfl
  | cons o rest ih =>
    simp only [List.countP_cons]
    by_cases hf : OutcomeFired o = true
    · by_cases hw : withinTol o tol = true
      · have h1 : isTruePositive o tol = true := by simp [isTruePositive, hf, hw]
        have h2 : isFalsePositive o tol = false := by simp [isFalsePositive, hf, hw]
        simp [h1, h2, hf]
        omega
      · have h1 : isTruePositive o tol = false := by simp [isTruePositive, hw]
        have h2 : isFalsePositive o tol = true := by simp [isFalsePositive, hf, hw]
        simp [h1, h2, hf]
        omega
    · have h1 : isTruePositive o tol = false := by simp [isTruePositive, hf]
      have h2 : isFalsePositive o tol = false := by simp [isFalsePositive, hf]
      simp [h1, h2, hf]
      omega

theorem countP_mono_of_imp {α : Type} (p q : α → Bool) (l : List α)
    (h : ∀ a ∈ l, p a = true → q a = true) : l.countP p ≤ l.countP q := by
  induction l with
  | nil => exact Nat.le_refl _
  | cons a rest ih =>
    simp only [List.countP_cons]
    have hr := ih (fun x hx => h x (List.mem_cons_of_mem a hx))
    by_cases hp : p a = true
    · rw [h a (List.mem_cons_self a rest) hp, hp]
      simpa using hr
    · have : (if p a then 1 else 0) = 0 := by simp [hp]
      rw [this]
      by_cases hq : q a = true <;> simp [hq] <;> omega

/-- C8.  The classification loop of `run_experiment` maps each (simulation,
detector) pair to exactly one of true positive, false positive or false
negative: over a corpus of `M` outcomes the counts satisfy `TN = 0` and
`TP + FP + FN = M` (no branch of the loop ever increments `true_negatives`). -/
theorem run_experiment_partition (tol : ℕ) (L : List DetectionOutcome) :
    (runCounts tol L).true_negatives = 0 ∧
      (runCounts tol L).true_positives + (runCounts tol L).false_positives +
        (runCounts tol L).false_negatives = L.length := by
  rw [runCounts_fields]
  refine ⟨rfl, ?_⟩
  simp only
  induction L with
  | nil => rfl
  | cons o rest ih =>
    simp only [List.countP_cons, List.length_cons]
    by_cases hf : OutcomeFired o = true
    · by_cases hw : withinTol o tol = true
      · have h1 : isTruePositive o tol = true := by simp [isTruePositive, hf, hw]
        have h2 : isFalsePositive o tol = false := by simp [isFalsePositive, hf, hw]
        have h3 : isFalseNegative o = false := by simp [isFalseNegative, hf]
        simp [h1, h2, h3]
        omega
      · have h1 : isTruePositive o tol = false := by simp [isTruePositive, hw]
        have h2 : isFalsePositive o tol = true := by simp [isFalsePositive, hf, hw]
        have h3 : isFalseNegative o = false := by simp [isFalseNegative, hf]
        simp [h1, h2, h3]
        omega
    · have h1 : isTruePositive o tol = false := by simp [isTruePositive, hf]
      have h2 : isFalsePositive o tol = false := by simp [isFalsePositive, hf]
      have h3 : isFalseNegative o = true := by simp [isFalseNegative, hf]
      simp [h1, h2, h3]
      omega

/-- C4.  For fixed outcomes, classification is monotone in the tolerance: every
true positive at `T1 ≤ T2` remains a true positive at `T2` (in particular no
true positive becomes a false positive), and precision and recall are monotone
non-decreasing in the tolerance. -/
theorem tolerance_monotone (L : List DetectionOutcome) (T1 T2 : ℕ) (h : T1 ≤ T2) :
    (∀ o ∈ L, isTruePositive o T1 = true → isTruePositive o T2 = true) ∧
      precision (runCounts T1 L) ≤ precision (runCounts T2 L) ∧
      recallOf (runCounts T1 L) ≤ recallOf (runCounts T2 L) := by
  have hmono : ∀ o : DetectionOutcome, isTruePositive o T1 = true →
      isTruePositive o T2 = true := by
    rintro ⟨det, idx, ti⟩
    simp only [isTruePositive, Bool.and_eq_true]
    rintro ⟨hf, hw⟩
    refine ⟨hf, ?_⟩
    unfold withinTol at hw ⊢
    cases idx with
    | none => simp at hw
    | some i =>
      simp only [decide_eq_true_eq] at hw ⊢
      omega
  have htp : L.countP (fun o => isTruePositive o T1) ≤
      L.countP (fun o => isTruePositive o T2) :=
    countP_mono_of_imp _ _ L (fun o _ => hmono o)
  have hsum : L.countP (fun o => isTruePositive o T1) +
        L.countP (fun o => isFalsePositive o T1) =
      L.countP (fun o => isTruePositive o T2) + L.countP (fun o => isFalsePositive o T2) := by
    rw [countP_tp_add_fp, countP_tp_add_fp]
  refine ⟨fun o _ => hmono o, ?_, ?_⟩
  · rw [runCounts_fields, runCounts_fields]
    simp only [precision]
    set a1 := L.countP (fun o => isTruePositive o T1) with ha1
    set b1 := L.countP (fun o => isFalsePositive o T1) with hb1
    set a2 := L.countP (fun o => isTruePositive o T2) with ha2
    set b2 := L.countP (fun o => isFalsePositive o T2) with hb2
    by_cases hz : a1 + b1 = 0
    · rw [if_pos hz]
      by_cases hz2 : a2 + b2 = 0
      · rw [if_pos hz2]
      · rw [if_neg hz2]
        positivity
    · rw [if_neg hz, if_neg (by omega : ¬ a2 + b2 = 0)]
      have hd : ((a1 : ℚ) + b1) = ((a2 : ℚ) + b2) := by
        exact_mod_cast hsum
      rw [← hd]
      have hpos : (0 : ℚ) < (a1 : ℚ) + b1 := by
        have : 0 < a1 + b1 := by omega
        push_cast
        exact_mod_cast this
      apply div_le_div_of_nonneg_right _ hpos.le
      exact_mod_cast htp
  · rw [runCounts_fields, runCounts_fields]
    simp only [recallOf]
    set a1 := L.countP (fun o => isTruePositive o T1) with ha1
    set a2 := L.countP (fun o => isTruePositive o T2) with ha2
    set c := L.countP (fun o => isFalseNegative o) with hc
    by_cases hz : a1 + c = 0
    · rw [if_pos hz]
      by_cases hz2 : a2 + c = 0
      · rw [if_pos hz2]
      · rw [if_neg hz2]
        positivity
    · rw [if_neg hz, if_neg (by omega : ¬ a2 + c = 0)]
      have h1 : (0 : ℚ) < (a1 : ℚ) + c := by exact_mod_cast Nat.pos_of_ne_zero hz
      have h2 : (0 : ℚ) < (a2 : ℚ) + c := by
        have : 0 < a2 + c := by omega
        exact_mod_cast this
      rw [div_le_div_iff₀ h1 h2]
      have htp2 : (a1 : ℚ) ≤ (a2 : ℚ) := by exact_mod_cast htp
      have hcn : (0 : ℚ) ≤ (c : ℚ) := by positivity
      nlinarith

theorem tolerance_monotone_witness :
    (5 : ℕ) ≤ 12 ∧
      ((∀ o ∈ [(⟨true, some 10, 0⟩ : DetectionOutcome), ⟨true, some 3, 0⟩, ⟨false, none, 5⟩],
          isTruePositive o 5 = true → isTruePositive o 12 = true) ∧
        precision (runCounts 5 [⟨true, some 10, 0⟩, ⟨true, some 3, 0⟩, ⟨false, none, 5⟩]) ≤
          precision (runCounts 12 [⟨true, some 10, 0⟩, ⟨true, some 3, 0⟩, ⟨false, none, 5⟩]) ∧
        recallOf (runCounts 5 [⟨true, some 10, 0⟩, ⟨true, some 3, 0⟩, ⟨false, none, 5⟩]) ≤
          recallOf (runCounts 12 [⟨true, some 10, 0⟩, ⟨true, some 3, 0⟩, ⟨false, none, 5⟩])) :=
  ⟨by decide, tolerance_monotone [⟨true, some 10, 0⟩, ⟨true, some 3, 0⟩, ⟨false, none, 5⟩] 5 12
    (by decide)⟩

/-- C10.  In the detailed per-simulation record, a detection at index 0 is
recorded with `error = None` (the Python conditional tests the truthiness of the
index, and `0` is falsy), while a detection at any non-zero index is recorded
with the signed error `detection_index - true_transition_index`. -/
theorem record_error_zero_index (i t : ℕ) (h : i ≠ 0) :
    detectionRecordError (some 0) t = none ∧
      detectionRecordError (some i) t = some ((i : ℤ) - (t : ℤ)) := by
  refine ⟨rfl, ?_⟩
  simp [detectionRecordError, h]

theorem record_error_zero_index_witness :
    (7 : ℕ) ≠ 0 ∧
      (detectionRecordError (some 0) 3 = none ∧
        detectionRecordError (some 7) 3 = some ((7 : ℤ) - (3 : ℤ))) :=
  ⟨by decide, record_error_zero_index 7 3 (by decide)⟩

end Nucleation
